import Mathlib

/-!
Verification of the photo-annotation pipeline of the `108-momento` backend.

Shallow embedding of:
- `server/app/services/photo_service.py` (`PhotoService.update_photo_ai_data`,
  the tag reconciler);
- `server/app/services/hybrid_ai_service.py` (`HybridAIService.process_photo_simple`,
  `_process_with_cv`, `_process_with_api`, `_extract_dominant_colors`);
- `server/app/services/openai_service.py` (the tags-normalization step of
  `OpenAIService.analyze_image`).

Conventions of the embedding:
- Machine state is the relational store: lists of `Photo`, `Tag` and `PhotoTag`
  rows, plus a fresh-id counter standing for the tag primary-key sequence.
- SQLAlchemy session semantics are modelled explicitly.  The session is created
  with `autoflush=False` (`database.py`), so `query(...)` sees only rows that
  have been flushed to the transaction; rows added with `session.add` and not
  yet flushed are invisible to queries.  `Sess` keeps the flushed state and the
  list of pending (added, unflushed) `PhotoTag` rows.  Tags are flushed
  immediately after creation (the code calls `self.db.flush()` right after
  `self.db.add(tag)`), so there is never a pending `Tag`.
- A flush inserts pending rows into the table and raises `IntegrityError`
  (modelled as `Except.error`) when a row collides with the composite primary
  key `(photo_id, tag_id, source)`.
- Exceptions are `Except String`; every `try/except` of the source becomes an
  explicit `match` on the `Except` value.
- Outcomes of the outside world (image decoding, OpenCV k-means, the OpenAI
  HTTP call, injected database faults) are oracle parameters.
- Floating-point confidences are carried as `Rat`; the code only stores them,
  never computes with them.
- `updated_at` timestamps, EXIF fields and other columns the pipeline does not
  read or branch on are omitted from the row types.
-/

/-- Value assigned to `Photo.dominant_colors`: the CV stage passes a Python
list of hex strings, the API stage passes a plain string. -/
inductive ColorsVal where
  | s (v : String)
  | lst (v : List String)
  deriving DecidableEq, Repr

/-- A `photos` row, restricted to the columns the pipeline reads or writes. -/
structure Photo where
  id : Nat
  caption : Option String
  dominant_colors : Option ColorsVal
  ai_status : String
  ai_error : Option String
  deriving DecidableEq, Repr

/-- A `tags` row (canonical tag vocabulary). -/
structure Tag where
  id : Nat
  name : String
  category : String
  deriving DecidableEq, Repr

/-- A `photo_tags` association row; composite key `(photo_id, tag_id, source)`. -/
structure PhotoTag where
  photo_id : Nat
  tag_id : Nat
  source : String
  confidence : Rat
  deriving DecidableEq, Repr

/-- The relational store. `nextTagId` models the tag primary-key sequence. -/
structure DB where
  photos : List Photo
  tags : List Tag
  photoTags : List PhotoTag
  nextTagId : Nat
  deriving DecidableEq, Repr

/-- One element of the `tags` argument of `update_photo_ai_data`: either a dict
`{"name": n, "confidence": c}` or a bare value turned into a string
(`str(tag_data)`); a bare value gets the default confidence 0.8. -/
inductive TagInput where
  | dict (name : String) (confidence : Rat)
  | str (s : String)
  deriving DecidableEq, Repr

/-- `tag_data.get('name') if isinstance(tag_data, dict) else str(tag_data)` -/
def tdName : TagInput → String
  | .dict n _ => n
  | .str s => s

/-- `tag_data.get('confidence', 0.8) if isinstance(tag_data, dict) else 0.8` -/
def tdConf : TagInput → Rat
  | .dict _ c => c
  | .str _ => 8/10

/-- `self.db.query(Photo).filter(Photo.id == photo_id).first()` -/
def getPhoto (db : DB) (pid : Nat) : Option Photo :=
  db.photos.find? (fun p => p.id == pid)

/-- `True` when a `photos` row with this id exists. -/
def photoExists (db : DB) (pid : Nat) : Bool :=
  (getPhoto db pid).isSome

/-- `ai_status` of the photo, when it exists. -/
def statusOf (db : DB) (pid : Nat) : Option String :=
  (getPhoto db pid).map Photo.ai_status

/-- `caption` of the photo, when it exists. -/
def captionOf (db : DB) (pid : Nat) : Option String :=
  match getPhoto db pid with
  | some p => p.caption
  | none => none

/-- `dominant_colors` of the photo, when it exists. -/
def dominantColorsOf (db : DB) (pid : Nat) : Option ColorsVal :=
  match getPhoto db pid with
  | some p => p.dominant_colors
  | none => none

/-- `ai_error` of the photo, when it exists. -/
def aiErrorOf (db : DB) (pid : Nat) : Option String :=
  match getPhoto db pid with
  | some p => p.ai_error
  | none => none

/-- ORM attribute assignment on the row returned by `getPhoto`: `photo.x = ...`
followed by `commit`.  When no row exists (`if photo:` fails) nothing happens. -/
def setPhoto (pid : Nat) (f : Photo → Photo) (db : DB) : DB :=
  { db with photos := db.photos.map (fun p => if p.id == pid then f p else p) }

/-- `self.db.query(Tag).filter(Tag.name == tag_name).first()` -/
def lookupTag (tags : List Tag) (name : String) : Option Tag :=
  tags.find? (fun t => t.name == name)

/-- Filter of the association-existence query:
`PhotoTag.photo_id == photo_id, PhotoTag.tag_id == tag.id, PhotoTag.source == "ai"`. -/
def assocPred (pid tid : Nat) : PhotoTag → Bool :=
  fun pt => pt.photo_id == pid && pt.tag_id == tid && pt.source == "ai"

/-- Equality of the composite primary key `(photo_id, tag_id, source)`. -/
def samePK (a b : PhotoTag) : Bool :=
  a.photo_id == b.photo_id && a.tag_id == b.tag_id && a.source == b.source

/-- Number of association rows matching `(pid, tid, "ai")`. -/
def countAssoc (db : DB) (pid tid : Nat) : Nat :=
  db.photoTags.countP (assocPred pid tid)

/-- Session state inside one `update_photo_ai_data` transaction: `flushed` is
what queries see, `pendingAssocs` are `PhotoTag` rows added but not yet flushed
(`autoflush=False`). -/
structure Sess where
  flushed : DB
  pendingAssocs : List PhotoTag
  deriving DecidableEq, Repr

/-- Insert one row into the `photo_tags` table; `IntegrityError` on a composite
primary-key collision. -/
def insertRow (l : List PhotoTag) (r : PhotoTag) : Except String (List PhotoTag) :=
  if (l.find? (fun x => samePK x r)).isSome then
    .error "IntegrityError: duplicate key value violates primary key of photo_tags"
  else
    .ok (l ++ [r])

/-- Insert the pending rows in order. -/
def insertRows (l : List PhotoTag) : List PhotoTag → Except String (List PhotoTag)
  | [] => .ok l
  | r :: rs =>
    match insertRow l r with
    | .ok l2 => insertRows l2 rs
    | .error e => .error e

/-- `session.flush()`: write pending rows to the transaction (they become
visible to queries), fail with `IntegrityError` on key collision. -/
def flushS (s : Sess) : Except String Sess :=
  match insertRows s.flushed.photoTags s.pendingAssocs with
  | .ok pts => .ok ⟨{ s.flushed with photoTags := pts }, []⟩
  | .error e => .error e

/-- `if not existing: self.db.add(PhotoTag(photo_id=..., tag_id=tag.id,
source="ai", confidence=float(confidence)))` — the existence query sees only
flushed rows. -/
def addAssoc (pid tid : Nat) (conf : Rat) (s : Sess) : Sess :=
  if (s.flushed.photoTags.find? (assocPred pid tid)).isSome then s
  else { s with pendingAssocs := s.pendingAssocs ++ [⟨pid, tid, "ai", conf⟩] }

/-- `category or 'other'` (Python truthiness: `None` and `""` both fall back). -/
def categoryOr (category : Option String) : String :=
  match category with
  | some c => if c = "" then "other" else c
  | none => "other"

/-- `tag = Tag(name=tag_name, category=category or 'other'); self.db.add(tag)`:
append the new tag row with the next fresh id. -/
def tagInsert (name : String) (category : Option String) (s : Sess) : Sess :=
  { s with flushed := { s.flushed with
      tags := s.flushed.tags ++ [⟨s.flushed.nextTagId, name, categoryOr category⟩]
      nextTagId := s.flushed.nextTagId + 1 } }

/-- Body of the per-tag loop of `update_photo_ai_data`: look the tag up by
exact name; if absent create it (`category or 'other'`) and flush to obtain
its id; then add the `(photo, tag, "ai")` association if no flushed row
matches. -/
def processTag (pid : Nat) (category : Option String) (td : TagInput) (s : Sess) :
    Except String Sess :=
  match lookupTag s.flushed.tags (tdName td) with
  | some t => .ok (addAssoc pid t.id (tdConf td) s)
  | none =>
    match flushS (tagInsert (tdName td) category s) with
    | .ok s2 => .ok (addAssoc pid s.flushed.nextTagId (tdConf td) s2)
    | .error e => .error e

/-- The `for tag_data in tags:` loop. -/
def reconcileTags (pid : Nat) (category : Option String) :
    List TagInput → Sess → Except String Sess
  | [], s => .ok s
  | td :: rest, s =>
    match processTag pid category td s with
    | .ok s2 => reconcileTags pid category rest s2
    | .error e => .error e

/-- Python truthiness of the optional `caption` / `dominant_colors` arguments:
`None`, `""` and `[]` are falsy. -/
def truthyStr : Option String → Bool
  | some v => v != ""
  | none => false

/-- Truthiness of the `dominant_colors` argument. -/
def truthyColors : Option ColorsVal → Bool
  | some (.s v) => v != ""
  | some (.lst v) => !v.isEmpty
  | none => false

/-- `if caption: photo.caption = caption` and
`if dominant_colors: photo.dominant_colors = dominant_colors`, on one row. -/
def updFieldsFn (caption : Option String) (dominant_colors : Option ColorsVal)
    (p : Photo) : Photo :=
  let p1 := if truthyStr caption then { p with caption := caption } else p
  if truthyColors dominant_colors then { p1 with dominant_colors := dominant_colors } else p1

/-- The caption / dominant-colors updates of `update_photo_ai_data`. -/
def updFields (pid : Nat) (caption : Option String) (dominant_colors : Option ColorsVal)
    (db : DB) : DB :=
  setPhoto pid (updFieldsFn caption dominant_colors) db

/-- `PhotoService.update_photo_ai_data` (photo_service.py, lines 276-340).
Looks the photo up (returns `False` when absent), updates caption and dominant
colors, runs the tag loop, then commits; any exception (here: the
`IntegrityError` a flush can raise) is caught, the transaction rolled back and
`False` returned.  The `mood` argument is accepted and never used, as in the
source. -/
def update_photo_ai_data (pid : Nat) (caption : Option String) (tags : List TagInput)
    (category : Option String) (dominant_colors : Option ColorsVal)
    (mood : Option String) (db : DB) : Bool × DB :=
  match getPhoto db pid with
  | none => (false, db)
  | some _ =>
    let s0 : Sess := ⟨updFields pid caption dominant_colors db, []⟩
    match reconcileTags pid category tags s0 with
    | .ok s1 =>
      match flushS s1 with
      | .ok s2 => (true, s2.flushed)
      | .error _ => (false, db)
    | .error _ => (false, db)

/-- `str(e)[:500]`: Python slicing is by character. -/
def strTake (s : String) (n : Nat) : String :=
  String.mk (s.data.take n)

/-- Fault-injected variant of `update_photo_ai_data` for the atomicity claim:
`failAt = some k` makes the k-th database round-trip (queries, flushes, the
final commit) raise.  The control flow is the same as `update_photo_ai_data`;
only the fault check before each database operation is added. -/
def chk (failAt : Option Nat) (ctr : Nat) : Except String Nat :=
  if failAt = some ctr then .error "OperationalError: database operation failed"
  else .ok (ctr + 1)

/-- Per-tag loop body with injected faults (each `self.db.query` / `flush`
counts as one database operation). -/
def processTagF (failAt : Option Nat) (pid : Nat) (category : Option String)
    (td : TagInput) (s : Sess) (ctr : Nat) : Except String (Sess × Nat) := do
  let ctr ← chk failAt ctr
  match lookupTag s.flushed.tags (tdName td) with
  | some t => do
    let ctr ← chk failAt ctr
    pure (addAssoc pid t.id (tdConf td) s, ctr)
  | none => do
    let ctr ← chk failAt ctr
    match flushS (tagInsert (tdName td) category s) with
    | .ok s2 => do
      let ctr ← chk failAt ctr
      pure (addAssoc pid s.flushed.nextTagId (tdConf td) s2, ctr)
    | .error e => .error e

/-- Tag loop with injected faults. -/
def reconcileTagsF (failAt : Option Nat) (pid : Nat) (category : Option String) :
    List TagInput → Sess → Nat → Except String (Sess × Nat)
  | [], s, ctr => .ok (s, ctr)
  | td :: rest, s, ctr =>
    match processTagF failAt pid category td s ctr with
    | .ok (s2, ctr2) => reconcileTagsF failAt pid category rest s2 ctr2
    | .error e => .error e

/-- Transaction body of `update_photo_ai_data` under fault injection; `.ok`
carries the state the final commit published. -/
def updateBodyF (failAt : Option Nat) (pid : Nat) (caption : Option String)
    (tags : List TagInput) (category : Option String)
    (dominant_colors : Option ColorsVal) (db : DB) : Except String (Option DB) := do
  let ctr ← chk failAt 0
  match getPhoto db pid with
  | none => pure none
  | some _ =>
    let s0 : Sess := ⟨updFields pid caption dominant_colors db, []⟩
    do
      let (s1, ctr) ← reconcileTagsF failAt pid category tags s0 ctr
      let _ ← chk failAt ctr
      match flushS s1 with
      | .ok s2 => pure (some s2.flushed)
      | .error e => .error e

/-- `update_photo_ai_data` with injected database faults: exceptions are caught
at the function boundary, the transaction is rolled back (the store reverts to
`db`) and `False` is returned; a missing photo returns `False` with no writes. -/
def update_photo_ai_dataF (failAt : Option Nat) (pid : Nat) (caption : Option String)
    (tags : List TagInput) (category : Option String)
    (dominant_colors : Option ColorsVal) (mood : Option String) (db : DB) : Bool × DB :=
  match updateBodyF failAt pid caption tags category dominant_colors db with
  | .ok (some db2) => (true, db2)
  | .ok none => (false, db)
  | .error _ => (false, db)

/-- Configuration flags read by `process_photo_simple`:
`settings.ai_cv_enabled`, `settings.ai_api_enabled`,
`settings.is_ai_api_available()`. -/
structure Config where
  cv_enabled : Bool
  api_enabled : Bool
  api_available : Bool
  deriving DecidableEq, Repr

/-- Result dictionary of a stage, as consumed by the save step
(`final_result.get(...)`).  Absent keys are `none`; the error dictionaries
`{"error": msg}` have `error = some msg` and every other field absent. -/
structure AIResult where
  error : Option String
  caption : Option String
  colors : Option ColorsVal
  tags : List TagInput
  category : Option String
  mood : Option String
  source : String
  deriving DecidableEq, Repr

/-- Successful payload of `_process_with_cv` (caption, 5-colour palette,
geometry/colour/complexity tags; the `features` dict is never read
downstream and is omitted). -/
structure CvSuccess where
  caption : String
  colors : List String
  tags : List TagInput
  deriving DecidableEq, Repr

/-- `_process_with_cv`: on success the result dictionary, on any failure
(image unreadable or an exception) `{"error": msg}`.  The outcome of decoding
and analysing the image is the oracle argument. -/
def process_with_cv (raw : Except String CvSuccess) : AIResult :=
  match raw with
  | .ok r =>
    { error := none, caption := some r.caption, colors := some (.lst r.colors)
      tags := r.tags, category := none, mood := none, source := "traditional_cv" }
  | .error e =>
    { error := some e, caption := none, colors := none, tags := []
      category := none, mood := none, source := "" }

/-- Dictionary returned by `OpenAIService.analyze_image` (which itself never
raises): a `success` flag, an `error` message on failure, and the analysis
fields with their `.get` defaults already applied. -/
structure AnalyzeResult where
  success : Bool
  error : Option String
  description : String
  colors : String
  mood : String
  tags : List String
  category : String
  deriving DecidableEq, Repr

/-- Mapping of a successful OpenAI reply into the pipeline result shape
(`_process_with_api`, openai branch). -/
def apiResultOf (r : AnalyzeResult) : AIResult :=
  { error := none, caption := some r.description, colors := some (.s r.colors)
    tags := r.tags.map (fun t => TagInput.dict t (9/10)), category := some r.category
    mood := some r.mood, source := "openai_api" }

/-- Body of `_process_with_api` with its `raise` sites explicit: unconfigured
provider, unimplemented qwen branch, or a non-success reply from
`analyze_image` all raise. -/
def process_with_api_body (provider : String) (hasOpenaiKey hasQwenKey : Bool)
    (r : AnalyzeResult) : Except String AIResult :=
  if provider == "openai" && hasOpenaiKey then
    if r.success then .ok (apiResultOf r)
    else .error ("OpenAI处理失败: " ++ r.error.getD "未知错误")
  else if provider == "qwen" && hasQwenKey then
    .error "通义千问API尚未实现"
  else
    .error ("未配置的API提供商: " ++ provider)

/-- `_process_with_api`: the surrounding `try/except` turns every raise into
the `{"error": str(e)}` dictionary — the function itself never raises. -/
def process_with_api (provider : String) (hasOpenaiKey hasQwenKey : Bool)
    (r : AnalyzeResult) : AIResult :=
  match process_with_api_body provider hasOpenaiKey hasQwenKey r with
  | .ok res => res
  | .error e =>
    { error := some e, caption := none, colors := none, tags := []
      category := none, mood := none, source := "" }

/-- Oracle for one invocation of `process_photo_simple`: outcomes of the
outside world and injected fault points, one per `try/except` of the source. -/
structure Oracle where
  cvRaw : Except String CvSuccess
  provider : String
  hasOpenaiKey : Bool
  hasQwenKey : Bool
  analyze : AnalyzeResult
  claimFails : Bool
  unexpected : Option String
  saveExc : Option String
  failWriteFails : Bool
  deriving Repr

/-- Step 1 of `process_photo_simple` (lines 38-49): query the photo and, if it
exists, set `ai_status = 'processing'` and commit; any exception in this block
is caught and swallowed. -/
def claimStep (claimFails : Bool) (pid : Nat) (db : DB) : DB :=
  if claimFails then db
  else
    match getPhoto db pid with
    | some _ => setPhoto pid (fun p => { p with ai_status := "processing" }) db
    | none => db

/-- Combination of the two stages (lines 51-81): start from `{}`; if CV is
enabled the CV result becomes `final_result`; if the API is enabled and
available, `final_result = api_result` unconditionally — `_process_with_api`
never raises, so the `except` fallback that would keep the CV result is dead. -/
def finalResultOf (cfg : Config) (o : Oracle) : Option AIResult :=
  let fr0 := if cfg.cv_enabled then some (process_with_cv o.cvRaw) else none
  if cfg.api_enabled && cfg.api_available then
    some (process_with_api o.provider o.hasOpenaiKey o.hasQwenKey o.analyze)
  else fr0

/-- Step 3 of `process_photo_simple` (lines 83-127): if a truthy, error-free
result exists, persist it via `update_photo_ai_data` (its return value is
ignored), then mark the photo completed and clear `ai_error`; if that
finalization raises (`o.saveExc`), mark the photo failed with the
*untruncated* message, swallowing any failure of that write too. -/
def saveStep (o : Oracle) (pid : Nat) (fr : Option AIResult) (db : DB) : DB :=
  match fr with
  | none => db
  | some r =>
    if r.error.isSome then db
    else
      let db1 := (update_photo_ai_data pid (some (r.caption.getD "")) r.tags
        (some (r.category.getD "other")) (some (r.colors.getD (.s "")))
        (some (r.mood.getD "")) db).2
      match o.saveExc with
      | none => setPhoto pid (fun p => { p with ai_status := "completed", ai_error := none }) db1
      | some e =>
        if o.failWriteFails then db1
        else setPhoto pid (fun p => { p with ai_status := "failed", ai_error := some e }) db1

/-- Body of `process_photo_simple` inside the top-level `try`; an uncaught
exception (`o.unexpected`, standing for any raise outside the inner handlers)
carries the state reached so far to the top-level handler. -/
def process_photo_simple_body (cfg : Config) (o : Oracle) (pid : Nat) (db : DB) :
    Except (String × DB) DB :=
  let db1 := claimStep o.claimFails pid db
  match o.unexpected with
  | some e => .error (e, db1)
  | none => .ok (saveStep o pid (finalResultOf cfg o) db1)

/-- `HybridAIService.process_photo_simple`: the top-level `except` catches
everything, marks the photo failed with `str(e)[:500]` (swallowing any failure
of that write) and returns normally — it never raises to its caller. -/
def process_photo_simple (cfg : Config) (o : Oracle) (pid : Nat) (db : DB) : DB :=
  match process_photo_simple_body cfg o pid db with
  | .ok d => d
  | .error (e, d) =>
    if o.failWriteFails then d
    else setPhoto pid (fun p => { p with ai_status := "failed", ai_error := some (strTake e 500) }) d

/-- One lowercase hexadecimal digit. -/
def hexDigitChar (n : Nat) : Char :=
  if n < 10 then Char.ofNat (48 + n) else Char.ofNat (87 + n)

/-- Hexadecimal digits of `n`, most significant first (no leading zeros). -/
def hexDigits (n : Nat) : List Char :=
  if h : n < 16 then [hexDigitChar n]
  else hexDigits (n / 16) ++ [hexDigitChar (n % 16)]
decreasing_by
  exact Nat.div_lt_self (Nat.lt_of_lt_of_le (by norm_num) (Nat.le_of_not_lt h)) (by norm_num)

/-- Python `f"{n:02x}"`: lowercase hex, zero-padded to width 2. -/
def hexByte (n : Nat) : String :=
  let l := hexDigits n
  String.mk (if l.length < 2 then '0' :: l else l)

/-- `f"#{r:02x}{g:02x}{b:02x}"` for one k-means centre. -/
def hexColor (c : Nat × Nat × Nat) : String :=
  "#" ++ hexByte c.1 ++ hexByte c.2.1 ++ hexByte c.2.2

/-- `HybridAIService._extract_dominant_colors`: the oracle is the outcome of
`cv2.kmeans` (`none` = the reshape or the clustering raised, covering
unreadable input; `some centers` = the centres it returned, already cast with
`.astype(int)`).  On failure the `except` returns `[]`; on success each centre
becomes a hex triplet. -/
def extract_dominant_colors (kmeansOut : Option (List (Nat × Nat × Nat))) : List String :=
  match kmeansOut with
  | none => []
  | some centers => centers.map hexColor

/-- JSON value found under `"tags"` in the OpenAI reply (`analysis.get("tags", "")`;
an absent key yields the default `""`, i.e. `jstr ""`). -/
inductive TagsValue where
  | jlist (l : List String)
  | jstr (s : String)
  | jother
  deriving DecidableEq, Repr

/-- Python `str.strip()`: drop whitespace from both ends. -/
def stripStr (s : String) : String :=
  String.mk (((s.data.dropWhile Char.isWhitespace).reverse.dropWhile Char.isWhitespace).reverse)

/-- Split a character list at every occurrence of `sep`
(Python `str.split(sep)`; the empty string yields `[""]`). -/
def splitChars (sep : Char) : List Char → List (List Char)
  | [] => [[]]
  | c :: cs =>
    match splitChars sep cs with
    | [] => if c = sep then [[], [c]] else [[c]]
    | g :: gs => if c = sep then [] :: g :: gs else (c :: g) :: gs

/-- Python `s.split(",")`. -/
def pySplit (s : String) (sep : Char) : List String :=
  (splitChars sep s.data).map String.mk

/-- Tags normalization of `OpenAIService.analyze_image` (lines 144-152): a
list is used as-is; a string is split on commas, items stripped, empties
dropped (`[t.strip() for t in tags_value.split(",") if t.strip()]`); anything
else yields `[]`. -/
def normalizeTags : TagsValue → List String
  | .jlist l => l
  | .jstr s => ((pySplit s ',').map stripStr).filter (fun t => t ≠ "")
  | .jother => []

/-! ### Generic lemmas about the store -/

theorem find?_map_update (l : List Photo) (pid : Nat) (f : Photo → Photo)
    (hid : ∀ p, (f p).id = p.id) :
    (l.map (fun p => if p.id == pid then f p else p)).find? (fun p => p.id == pid)
      = (l.find? (fun p => p.id == pid)).map f := by
  induction l with
  | nil => rfl
  | cons p l ih =>
    by_cases hp : (p.id == pid) = true
    · simp only [List.map_cons, hp, if_pos]
      rw [List.find?_cons, List.find?_cons]
      have : ((f p).id == pid) = true := by rw [hid p]; exact hp
      simp [this, hp]
    · simp only [List.map_cons, hp, if_neg, Bool.not_eq_true]
      rw [List.find?_cons, List.find?_cons]
      simp only [hp, Bool.false_eq_true, if_neg]
      simpa [hp] using ih

theorem getPhoto_setPhoto (db : DB) (pid : Nat) (f : Photo → Photo)
    (hid : ∀ p, (f p).id = p.id) :
    getPhoto (setPhoto pid f db) pid = (getPhoto db pid).map f :=
  find?_map_update db.photos pid f hid

theorem photoExists_setPhoto (db : DB) (pid : Nat) (f : Photo → Photo)
    (hid : ∀ p, (f p).id = p.id) :
    photoExists (setPhoto pid f db) pid = photoExists db pid := by
  unfold photoExists
  rw [getPhoto_setPhoto db pid f hid]
  cases getPhoto db pid <;> rfl

theorem getPhoto_claimStep (c : Bool) (pid : Nat) (db : DB) :
    getPhoto (claimStep c pid db) pid
      = if c then getPhoto db pid
        else (getPhoto db pid).map (fun p => { p with ai_status := "processing" }) := by
  unfold claimStep
  cases c with
  | true => simp
  | false =>
    simp only [Bool.false_eq_true, if_neg, if_false]
    cases h : getPhoto db pid with
    | none => simp [h]
    | some p =>
      dsimp only
      rw [getPhoto_setPhoto db pid (fun p => { p with ai_status := "processing" })
        (fun _ => rfl), h]

theorem photoExists_claimStep (c : Bool) (pid : Nat) (db : DB) :
    photoExists (claimStep c pid db) pid = photoExists db pid := by
  unfold photoExists
  rw [getPhoto_claimStep]
  cases c with
  | true => rfl
  | false => cases getPhoto db pid <;> rfl

/-! ### Lemmas about the hex-colour formatting -/

theorem hexDigits_of_lt_16 (n : Nat) (h : n < 16) : hexDigits n = [hexDigitChar n] := by
  rw [hexDigits]
  simp [h]

theorem hexByte_length (n : Nat) (h : n < 256) : (hexByte n).length = 2 := by
  unfold hexByte
  by_cases h16 : n < 16
  · rw [hexDigits_of_lt_16 n h16]
    rfl
  · rw [hexDigits]
    simp only [h16, dite_false, dif_neg]
    rw [hexDigits_of_lt_16 (n / 16) (by omega)]
    rfl

theorem hexColor_length (c : Nat × Nat × Nat) (h1 : c.1 < 256) (h2 : c.2.1 < 256)
    (h3 : c.2.2 < 256) : (hexColor c).length = 7 := by
  unfold hexColor
  rw [String.length_append, String.length_append, String.length_append,
    hexByte_length _ h1, hexByte_length _ h2, hexByte_length _ h3]
  rfl

theorem hexColor_hash (c : Nat × Nat × Nat) :
    hexColor c = "#" ++ (hexByte c.1 ++ (hexByte c.2.1 ++ hexByte c.2.2)) := by
  unfold hexColor
  rw [String.append_assoc, String.append_assoc]

/-! ### Concrete scenario fixtures -/

/-- A store holding one photo, id 1, status `pending`, nothing else. -/
def dbPend : DB := ⟨[⟨1, none, none, "pending", none⟩], [], [], 1⟩

/-- A store holding one photo, id 1, already in terminal status `completed`. -/
def dbDone : DB := ⟨[⟨1, none, none, "completed", none⟩], [], [], 1⟩

/-- An `analyze_image` reply that reports failure (unused in CV-only runs). -/
def analyzeFail : AnalyzeResult := ⟨false, some "API请求失败: 500", "无法分析图片", "", "", [], "other"⟩

/-- Oracle of a run whose CV stage fails to load the image and whose API stage
is unconfigured; no injected faults. -/
def oQuiet : Oracle :=
  { cvRaw := .error "图像加载失败", provider := "openai", hasOpenaiKey := false
    hasQwenKey := false, analyze := analyzeFail, claimFails := false
    unexpected := none, saveExc := none, failWriteFails := false }

/-- Oracle of a run whose CV stage succeeds while the API stage fails (qwen
provider configured, branch raises "not implemented"); no injected faults. -/
def oCvOkApiFail : Oracle :=
  { cvRaw := .ok ⟨"横向照片，主色调#aabbcc，尺寸100x50", ["#aabbcc"], [.dict "横向" (9/10)]⟩
    provider := "qwen", hasOpenaiKey := false, hasQwenKey := true
    analyze := analyzeFail, claimFails := false, unexpected := none
    saveExc := none, failWriteFails := false }

/-- A 501-character error message. -/
def longErr : String := String.mk (List.replicate 501 'x')

/-- Oracle of a CV-only run whose result is usable but whose finalize commit
(the `db.commit()` after setting `completed`) raises with a 501-character
message. -/
def oSaveExcLong : Oracle :=
  { cvRaw := .ok ⟨"方形照片，彩色，尺寸10x10", [], []⟩, provider := "openai"
    hasOpenaiKey := false, hasQwenKey := false, analyze := analyzeFail
    claimFails := false, unexpected := none, saveExc := some longErr
    failWriteFails := false }

/-! ### C1 — the claim step -/

/-- C1 counterexample: with the stored status already terminal (`completed`),
`Run` still writes `processing` — it does not check for `pending` and does not
abort without side effects, contradicting the claim. -/
theorem c1_counterexample :
    statusOf dbDone 1 = some "completed" ∧
    statusOf (process_photo_simple ⟨false, false, false⟩ oQuiet 1 dbDone) 1
      = some "processing" := by
  exact ⟨rfl, rfl⟩

/-- C1 (amended): the claim step is unconditional — whenever a photo with the
given id exists, `Run` sets its status to `processing` regardless of the
stored value and proceeds; nothing is checked and nothing aborts.  (With both
stages disabled and no faults, the run is exactly the claim-step write.) -/
theorem c1_claim_is_unconditional (cfg : Config) (o : Oracle) (pid : Nat) (db : DB)
    (hc : o.claimFails = false) (hu : o.unexpected = none)
    (hcv : cfg.cv_enabled = false) (hapi : cfg.api_enabled = false)
    (hp : photoExists db pid = true) :
    statusOf (process_photo_simple cfg o pid db) pid = some "processing" ∧
    process_photo_simple cfg o pid db = claimStep false pid db := by
  have hrun : process_photo_simple cfg o pid db = claimStep false pid db := by
    unfold process_photo_simple process_photo_simple_body finalResultOf saveStep
    rw [hc, hu, hcv, hapi]
    simp
  refine ⟨?_, hrun⟩
  rw [hrun]
  unfold statusOf
  rw [getPhoto_claimStep]
  simp only [Bool.false_eq_true, if_false]
  cases hg : getPhoto db pid with
  | none =>
    unfold photoExists at hp
    rw [hg] at hp
    simp at hp
  | some p => simp

/-- C1 witness. -/
theorem c1_claim_is_unconditional_witness :
    statusOf (process_photo_simple ⟨false, false, false⟩ oQuiet 1 dbDone) 1
      = some "processing" :=
  (c1_claim_is_unconditional ⟨false, false, false⟩ oQuiet 1 dbDone rfl rfl rfl rfl rfl).1

/-! ### C2 — terminal status -/

/-- C2: when no usable result exists (CV stage fails with an image-load error,
API stage disabled), the run finishes with the photo still at `processing`; the
code never transitions it to `failed`, contradicting the claim (the spec notes
this stuck-at-`processing` behaviour as very likely unintended). -/
theorem c2_no_usable_result_leaves_processing :
    statusOf (process_photo_simple ⟨true, false, false⟩ oQuiet 1 dbPend) 1
      = some "processing" ∧
    aiErrorOf (process_photo_simple ⟨true, false, false⟩ oQuiet 1 dbPend) 1 = none := by
  exact ⟨rfl, rfl⟩

/-! ### C4 — graceful degradation -/

/-- C4: with the CV stage succeeding and the API stage enabled but failing,
`final_result = api_result` overwrites the local result with the error
dictionary (`_process_with_api` returns `{"error": ...}` instead of raising, so
the `except` that would keep the CV result is dead).  Nothing is persisted, the
caption stays empty, no tags are linked, and the status is left at
`processing` instead of `completed`. -/
theorem c4_api_failure_discards_local_result :
    statusOf (process_photo_simple ⟨true, true, true⟩ oCvOkApiFail 1 dbPend) 1
      = some "processing" ∧
    captionOf (process_photo_simple ⟨true, true, true⟩ oCvOkApiFail 1 dbPend) 1 = none ∧
    (process_photo_simple ⟨true, true, true⟩ oCvOkApiFail 1 dbPend).photoTags = [] := by
  exact ⟨rfl, rfl, rfl⟩

/-! ### C6 — error truncation -/

/-- C6 counterexample: a finalize (persistence) failure is stored on
`ai_error` untruncated — with a 501-character message the stored value has
length 501 > 500, contradicting the claim that every stored `aiError` is at
most 500 characters. -/
theorem c6_counterexample :
    aiErrorOf (process_photo_simple ⟨true, false, false⟩ oSaveExcLong 1 dbPend) 1
      = some longErr ∧
    500 < longErr.length := by
  constructor
  · rfl
  · show 500 < (List.replicate 501 'x').length
    rw [List.length_replicate]
    omega

/-- C6 (amended): only the top-level unexpected-error handler truncates the
message to 500 characters (`str(e)[:500]`); the save-failure handler inside
step 3 stores the untruncated text.  Whenever the top-level handler runs and
its own write succeeds, the stored `ai_error` is the 500-character truncation. -/
theorem c6_top_level_truncation (cfg : Config) (o : Oracle) (pid : Nat) (db : DB)
    (e : String) (hu : o.unexpected = some e) (hf : o.failWriteFails = false)
    (hp : photoExists db pid = true) :
    aiErrorOf (process_photo_simple cfg o pid db) pid = some (strTake e 500) ∧
    (strTake e 500).length ≤ 500 := by
  constructor
  · unfold process_photo_simple process_photo_simple_body
    rw [hu, hf]
    dsimp only
    simp only [Bool.false_eq_true, if_false]
    unfold aiErrorOf
    rw [getPhoto_setPhoto _ pid
      (fun p => { p with ai_status := "failed", ai_error := some (strTake e 500) })
      (fun _ => rfl)]
    have hex : photoExists (claimStep o.claimFails pid db) pid = true := by
      rw [photoExists_claimStep]
      exact hp
    unfold photoExists at hex
    cases hg : getPhoto (claimStep o.claimFails pid db) pid with
    | none => simp [hg] at hex
    | some p => rfl
  · show (e.data.take 500).length ≤ 500
    rw [List.length_take]
    exact min_le_left _ _

/-- C6 witness for the amended theorem. -/
theorem c6_top_level_truncation_witness :
    aiErrorOf (process_photo_simple ⟨false, false, false⟩
      { oQuiet with unexpected := some "boom" } 1 dbPend) 1 = some (strTake "boom" 500) :=
  (c6_top_level_truncation ⟨false, false, false⟩
    { oQuiet with unexpected := some "boom" } 1 dbPend "boom" rfl rfl rfl).1

/-! ### C7 — tags normalization -/

/-- C7 counterexample: when the `tags` field arrives as a list, the list is
used verbatim — an empty item and an item with surrounding whitespace survive,
so the output is not "a list of trimmed, non-empty strings" as claimed. -/
theorem c7_counterexample :
    normalizeTags (TagsValue.jlist ["", " cat"]) = ["", " cat"] ∧
    "" ∈ normalizeTags (TagsValue.jlist ["", " cat"]) ∧
    stripStr " cat" ≠ " cat" := by
  refine ⟨rfl, ?_, by decide⟩
  rw [show normalizeTags (TagsValue.jlist ["", " cat"]) = ["", " cat"] from rfl]
  exact List.mem_cons_self _ _

/-- C7 (amended): a string-valued `tags` field is split on commas, the items
are trimmed and empties are dropped (so every element of the result is a
trimmed non-empty string); a list-valued `tags` field is used verbatim with no
trimming or filtering; both example inputs `"cat, dog"` and `["cat","dog"]`
normalize to `["cat","dog"]`. -/
theorem c7_tags_normalization :
    normalizeTags (TagsValue.jstr "cat, dog") = ["cat", "dog"] ∧
    normalizeTags (TagsValue.jlist ["cat", "dog"]) = ["cat", "dog"] ∧
    (∀ l, normalizeTags (TagsValue.jlist l) = l) ∧
    (∀ s t, t ∈ normalizeTags (TagsValue.jstr s) → t ≠ "" ∧ ∃ u, t = stripStr u) := by
  refine ⟨by decide, rfl, fun l => rfl, ?_⟩
  intro s t ht
  unfold normalizeTags at ht
  rw [List.mem_filter] at ht
  refine ⟨by simpa using ht.2, ?_⟩
  obtain ⟨u, _, hu⟩ := List.mem_map.mp ht.1
  exact ⟨u, hu.symm⟩

/-- C7 witness for the amended theorem. -/
theorem c7_tags_normalization_witness :
    "cat" ≠ "" ∧ ∃ u, "cat" = stripStr u :=
  c7_tags_normalization.2.2.2 "cat, dog" "cat" (by decide)

/-! ### C9 — colour extractor -/

/-- C9: the colour extractor returns `[]` (not an error) whenever the image
cannot be read or clustering fails, and otherwise returns one hex triplet per
k-means centre — `k` strings of the shape `"#rrggbb"` (length 7, leading `#`)
for byte-valued centres. -/
theorem c9_color_extractor (kOut : Option (List (Nat × Nat × Nat))) (k : Nat) :
    (kOut = none → extract_dominant_colors kOut = []) ∧
    (∀ cs, kOut = some cs → cs.length = k →
      extract_dominant_colors kOut = cs.map hexColor ∧
      (extract_dominant_colors kOut).length = k ∧
      (∀ c ∈ cs, c.1 < 256 → c.2.1 < 256 → c.2.2 < 256 →
        (hexColor c).length = 7 ∧
        hexColor c = "#" ++ (hexByte c.1 ++ (hexByte c.2.1 ++ hexByte c.2.2)))) := by
  constructor
  · intro h
    rw [h]
    rfl
  · intro cs hcs hlen
    subst hcs
    refine ⟨rfl, ?_, ?_⟩
    · show (cs.map hexColor).length = k
      rw [List.length_map]
      exact hlen
    · intro c _ h1 h2 h3
      exact ⟨hexColor_length c h1 h2 h3, hexColor_hash c⟩

/-- C9 witness. -/
theorem c9_color_extractor_witness :
    extract_dominant_colors none = [] ∧
    extract_dominant_colors (some [(255, 0, 10)]) = [hexColor (255, 0, 10)] ∧
    (hexColor (255, 0, 10)).length = 7 :=
  ⟨(c9_color_extractor none 0).1 rfl,
    ((c9_color_extractor (some [(255, 0, 10)]) 1).2 [(255, 0, 10)] rfl rfl).1,
    (((c9_color_extractor (some [(255, 0, 10)]) 1).2 [(255, 0, 10)] rfl rfl).2.2
      (255, 0, 10) (by decide) (by decide) (by decide) (by decide)).1⟩

/-! ### C10 — persistence atomicity -/

/-- C10: `update_photo_ai_data` is atomic and total: whenever it reports
failure (a database operation raised at any injected fault point, an
`IntegrityError` surfaced, or the photo does not exist) the store is exactly
the input store — no partial write survives — and the call returns `False`
instead of raising; a missing photo in particular returns `(False, db)`. -/
theorem c10_update_atomic (failAt : Option Nat) (pid : Nat) (caption : Option String)
    (tags : List TagInput) (category : Option String)
    (dominant_colors : Option ColorsVal) (mood : Option String) (db : DB) :
    ((update_photo_ai_dataF failAt pid caption tags category dominant_colors mood db).1
        = false →
      (update_photo_ai_dataF failAt pid caption tags category dominant_colors mood db).2
        = db) ∧
    (getPhoto db pid = none →
      update_photo_ai_dataF failAt pid caption tags category dominant_colors mood db
        = (false, db)) := by
  constructor
  · intro h
    unfold update_photo_ai_dataF at h ⊢
    cases hb : updateBodyF failAt pid caption tags category dominant_colors db with
    | ok v =>
      cases v with
      | some d => rw [hb] at h; simp at h
      | none => rfl
    | error e => rfl
  · intro h
    unfold update_photo_ai_dataF updateBodyF
    simp only [h]
    cases hc : chk failAt 0 with
    | ok c => simp [Bind.bind, Except.bind, hc, pure, Except.pure]
    | error e => simp [Bind.bind, Except.bind, hc]

/-- C10 witness: a fault on the very first database operation leaves the store
unchanged, and a missing photo returns `(False, db)` without writes. -/
theorem c10_update_atomic_witness :
    (update_photo_ai_dataF (some 0) 1 none [] none none none dbPend).2 = dbPend ∧
    update_photo_ai_dataF none 7 none [] none none none dbPend = (false, dbPend) :=
  ⟨(c10_update_atomic (some 0) 1 none [] none none none dbPend).1 rfl,
    (c10_update_atomic none 7 none [] none none none dbPend).2 rfl⟩

/-! ### Preservation lemmas through the reconciler -/

theorem updFieldsFn_id (caption : Option String) (dc : Option ColorsVal) (p : Photo) :
    (updFieldsFn caption dc p).id = p.id := by
  unfold updFieldsFn
  dsimp only
  split <;> split <;> rfl

theorem updFieldsFn_status (caption : Option String) (dc : Option ColorsVal) (p : Photo) :
    (updFieldsFn caption dc p).ai_status = p.ai_status := by
  unfold updFieldsFn
  dsimp only
  split <;> split <;> rfl

theorem addAssoc_flushed (pid tid : Nat) (conf : Rat) (s : Sess) :
    (addAssoc pid tid conf s).flushed = s.flushed := by
  unfold addAssoc
  split <;> rfl

theorem flushS_ok_fields (s s2 : Sess) (h : flushS s = .ok s2) :
    s2.flushed.photos = s.flushed.photos ∧ s2.flushed.tags = s.flushed.tags ∧
    s2.flushed.nextTagId = s.flushed.nextTagId ∧ s2.pendingAssocs = [] := by
  unfold flushS at h
  cases hins : insertRows s.flushed.photoTags s.pendingAssocs with
  | ok pts =>
    rw [hins] at h
    injection h with h2
    subst h2
    exact ⟨rfl, rfl, rfl, rfl⟩
  | error e => rw [hins] at h; exact absurd h (by simp)

theorem tagInsert_photos (name : String) (cat : Option String) (s : Sess) :
    (tagInsert name cat s).flushed.photos = s.flushed.photos := rfl

theorem processTag_ok_photos (pid : Nat) (cat : Option String) (td : TagInput) (s s2 : Sess)
    (h : processTag pid cat td s = .ok s2) : s2.flushed.photos = s.flushed.photos := by
  unfold processTag at h
  cases hl : lookupTag s.flushed.tags (tdName td) with
  | some t =>
    rw [hl] at h
    injection h with h2
    subst h2
    rw [addAssoc_flushed]
  | none =>
    rw [hl] at h
    dsimp only at h
    cases hf : flushS (tagInsert (tdName td) cat s) with
    | ok s3 =>
      rw [hf] at h
      injection h with h2
      subst h2
      rw [addAssoc_flushed]
      rw [(flushS_ok_fields _ _ hf).1]
      exact tagInsert_photos _ _ _
    | error e => rw [hf] at h; exact absurd h (by simp)

theorem reconcileTags_ok_photos (pid : Nat) (cat : Option String) (ts : List TagInput) :
    ∀ s s2, reconcileTags pid cat ts s = .ok s2 → s2.flushed.photos = s.flushed.photos := by
  induction ts with
  | nil =>
    intro s s2 h
    injection h with h2
    subst h2
    rfl
  | cons td rest ih =>
    intro s s2 h
    unfold reconcileTags at h
    cases hp : processTag pid cat td s with
    | ok s3 =>
      rw [hp] at h
      rw [ih s3 s2 h, processTag_ok_photos pid cat td s s3 hp]
    | error e => rw [hp] at h; exact absurd h (by simp)

theorem statusOf_updFields (pid : Nat) (caption : Option String) (dc : Option ColorsVal)
    (db : DB) : statusOf (updFields pid caption dc db) pid = statusOf db pid := by
  unfold statusOf updFields
  rw [getPhoto_setPhoto db pid (updFieldsFn caption dc) (updFieldsFn_id caption dc)]
  cases getPhoto db pid with
  | none => rfl
  | some p =>
    dsimp only [Option.map]
    rw [updFieldsFn_status]

theorem statusOf_update (pid : Nat) (cap : Option String) (ts : List TagInput)
    (cat : Option String) (cols : Option ColorsVal) (mood : Option String) (db : DB) :
    statusOf (update_photo_ai_data pid cap ts cat cols mood db).2 pid = statusOf db pid := by
  unfold update_photo_ai_data
  cases hg : getPhoto db pid with
  | none => rfl
  | some p =>
    dsimp only
    cases hr : reconcileTags pid cat ts ⟨updFields pid cap cols db, []⟩ with
    | ok s1 =>
      dsimp only
      cases hf : flushS s1 with
      | ok s2 =>
        dsimp only
        have h1 : s2.flushed.photos = s1.flushed.photos := (flushS_ok_fields _ _ hf).1
        have h2 : s1.flushed.photos = (updFields pid cap cols db).photos :=
          reconcileTags_ok_photos pid cat ts _ _ hr
        have h3 : statusOf s2.flushed pid = statusOf (updFields pid cap cols db) pid := by
          unfold statusOf getPhoto
          rw [h1, h2]
        rw [h3, statusOf_updFields]
      | error e => rfl
    | error e => rfl

theorem photoExists_eq_statusOf_isSome (db : DB) (pid : Nat) :
    photoExists db pid = (statusOf db pid).isSome := by
  unfold photoExists statusOf
  cases getPhoto db pid <;> rfl

theorem photoExists_update (pid : Nat) (cap : Option String) (ts : List TagInput)
    (cat : Option String) (cols : Option ColorsVal) (mood : Option String) (db : DB) :
    photoExists (update_photo_ai_data pid cap ts cat cols mood db).2 pid
      = photoExists db pid := by
  rw [photoExists_eq_statusOf_isSome, statusOf_update, ← photoExists_eq_statusOf_isSome]

/-! ### C8 — exception containment -/

/-- C8: `Run` never surfaces an exception.  An unexpected error at any point is
caught by the top-level handler and becomes a `failed` transition; the API
stage catches every internal raise and returns it only as the `error` field of
its result dictionary (never raising); the CV stage does the same; and a
failing finalize (persistence) step likewise ends in a `failed` transition
instead of a propagated exception. -/
theorem c8_run_never_raises (cfg : Config) (o : Oracle) (pid : Nat) (db : DB) (e : String)
    (hu : o.unexpected = some e) (hf : o.failWriteFails = false)
    (hp : photoExists db pid = true) :
    statusOf (process_photo_simple cfg o pid db) pid = some "failed" ∧
    (∀ provider k1 k2 r,
      (∃ res, process_with_api_body provider k1 k2 r = .ok res ∧
        process_with_api provider k1 k2 r = res ∧ res.error = none) ∨
      (∃ e2, process_with_api_body provider k1 k2 r = .error e2 ∧
        (process_with_api provider k1 k2 r).error = some e2)) ∧
    (∀ e3, (process_with_cv (.error e3)).error = some e3) ∧
    (∀ (cfg2 : Config) (o2 : Oracle) (pid2 : Nat) (db2 : DB) (r : AIResult) (e4 : String),
      o2.unexpected = none → o2.saveExc = some e4 → o2.failWriteFails = false →
      finalResultOf cfg2 o2 = some r → r.error = none → photoExists db2 pid2 = true →
      statusOf (process_photo_simple cfg2 o2 pid2 db2) pid2 = some "failed") := by
  refine ⟨?_, ?_, fun e3 => rfl, ?_⟩
  · unfold process_photo_simple process_photo_simple_body
    rw [hu, hf]
    dsimp only
    simp only [Bool.false_eq_true, if_false]
    unfold statusOf
    rw [getPhoto_setPhoto _ pid
      (fun p => { p with ai_status := "failed", ai_error := some (strTake e 500) })
      (fun _ => rfl)]
    have hex : photoExists (claimStep o.claimFails pid db) pid = true := by
      rw [photoExists_claimStep]
      exact hp
    unfold photoExists at hex
    cases hg : getPhoto (claimStep o.claimFails pid db) pid with
    | none => simp [hg] at hex
    | some p => rfl
  · intro provider k1 k2 r
    unfold process_with_api
    cases hb : process_with_api_body provider k1 k2 r with
    | ok res =>
      refine Or.inl ⟨res, rfl, rfl, ?_⟩
      unfold process_with_api_body at hb
      split at hb
      · split at hb
        · injection hb with h2
          subst h2
          rfl
        · exact absurd hb (by simp)
      · split at hb
        · exact absurd hb (by simp)
        · exact absurd hb (by simp)
    | error e2 => exact Or.inr ⟨e2, rfl, rfl⟩
  · intro cfg2 o2 pid2 db2 r e4 hu2 hsx hfw hfr herr hpe
    unfold process_photo_simple process_photo_simple_body
    rw [hu2]
    dsimp only
    unfold saveStep
    rw [hfr]
    dsimp only
    rw [herr]
    simp only [Option.isSome_none, Bool.false_eq_true, if_false]
    rw [hsx, hfw]
    dsimp only
    simp only [Bool.false_eq_true, if_false]
    unfold statusOf
    rw [getPhoto_setPhoto _ pid2
      (fun p => { p with ai_status := "failed", ai_error := some e4 })
      (fun _ => rfl)]
    have hex2 : photoExists (update_photo_ai_data pid2 (some (r.caption.getD ""))
        r.tags (some (r.category.getD "other")) (some (r.colors.getD (.s "")))
        (some (r.mood.getD "")) (claimStep o2.claimFails pid2 db2)).2 pid2 = true := by
      rw [photoExists_update, photoExists_claimStep]
      exact hpe
    unfold photoExists at hex2
    cases hg : getPhoto (update_photo_ai_data pid2 (some (r.caption.getD ""))
        r.tags (some (r.category.getD "other")) (some (r.colors.getD (.s "")))
        (some (r.mood.getD "")) (claimStep o2.claimFails pid2 db2)).2 pid2 with
    | none => simp [hg] at hex2
    | some p => rfl

/-- C8 witness. -/
theorem c8_run_never_raises_witness :
    statusOf (process_photo_simple ⟨false, false, false⟩
      { oQuiet with unexpected := some "boom" } 1 dbPend) 1 = some "failed" :=
  (c8_run_never_raises ⟨false, false, false⟩ { oQuiet with unexpected := some "boom" }
    1 dbPend "boom" rfl rfl rfl).1

/-! ### Reconciler invariants -/

/-- Rows visible in the transaction plus rows still pending. -/
def visibleAssocs (s : Sess) : List PhotoTag :=
  s.flushed.photoTags ++ s.pendingAssocs

/-- The tag named `name` resolves and an `"ai"` association row for it and this
photo exists in the store. -/
def tagLinked (db : DB) (pid : Nat) (name : String) : Prop :=
  ∃ t, lookupTag db.tags name = some t ∧ ∃ r ∈ db.photoTags, assocPred pid t.id r = true

/-- Session-level version of `tagLinked`, counting pending rows as present. -/
def tagLinkedS (pid : Nat) (s : Sess) (name : String) : Prop :=
  ∃ t, lookupTag s.flushed.tags name = some t ∧
    ∃ r ∈ visibleAssocs s, assocPred pid t.id r = true

/-- Store invariants maintained by the real database: unique tag names (unique
key on `tags.name`), unique tag ids (primary key), ids below the sequence
value, and at most one association row per composite key. -/
structure DBInv (db : DB) : Prop where
  namesNodup : (db.tags.map Tag.name).Nodup
  idsNodup : (db.tags.map Tag.id).Nodup
  idsLt : ∀ t ∈ db.tags, t.id < db.nextTagId
  ptPK : db.photoTags.Pairwise (fun a b => ¬ samePK a b = true)

/-- Transaction invariants: the flushed store is well formed, pending rows have
pairwise distinct keys, collide with no flushed row, and are `"ai"` rows of
this photo pointing at existing tags. -/
structure SessInv (pid : Nat) (s : Sess) : Prop where
  dbi : DBInv s.flushed
  pendPK : s.pendingAssocs.Pairwise (fun a b => ¬ samePK a b = true)
  pendFresh : ∀ r ∈ s.pendingAssocs, ∀ r2 ∈ s.flushed.photoTags, ¬ samePK r r2 = true
  pendShape : ∀ r ∈ s.pendingAssocs, r.photo_id = pid ∧ r.source = "ai" ∧
    ∃ t ∈ s.flushed.tags, r.tag_id = t.id

theorem samePK_iff (a b : PhotoTag) :
    samePK a b = true ↔ (a.photo_id = b.photo_id ∧ a.tag_id = b.tag_id ∧ a.source = b.source) := by
  unfold samePK
  simp [Bool.and_eq_true, and_assoc]

theorem assocPred_iff (pid tid : Nat) (pt : PhotoTag) :
    assocPred pid tid pt = true ↔ (pt.photo_id = pid ∧ pt.tag_id = tid ∧ pt.source = "ai") := by
  unfold assocPred
  simp [Bool.and_eq_true, and_assoc]

theorem samePK_symm_not (a b : PhotoTag) (h : ¬ samePK a b = true) : ¬ samePK b a = true := by
  rw [samePK_iff] at h ⊢
  intro ⟨h1, h2, h3⟩
  exact h ⟨h1.symm, h2.symm, h3.symm⟩

theorem samePK_of_assocPred (pid tid : Nat) (a b : PhotoTag)
    (ha : assocPred pid tid a = true) (hb : assocPred pid tid b = true) :
    samePK a b = true := by
  rw [assocPred_iff] at ha hb
  rw [samePK_iff]
  exact ⟨ha.1.trans hb.1.symm, ha.2.1.trans hb.2.1.symm, ha.2.2.trans hb.2.2.symm⟩

theorem countP_eq_one_of_pairwise (l : List PhotoTag) (p : PhotoTag → Bool)
    (hpair : l.Pairwise (fun a b => ¬ samePK a b = true))
    (hcompat : ∀ a b, p a = true → p b = true → samePK a b = true)
    (hex : ∃ a ∈ l, p a = true) : l.countP p = 1 := by
  induction l with
  | nil => obtain ⟨a, ha, _⟩ := hex; exact absurd ha (List.not_mem_nil a)
  | cons a l ih =>
    rw [List.countP_cons]
    rcases List.pairwise_cons.mp hpair with ⟨hhead, htail⟩
    cases hpa : p a with
    | true =>
      have hz : l.countP p = 0 := by
        rw [List.countP_eq_zero]
        intro b hb hpb
        exact hhead b hb (hcompat a b hpa hpb)
      simp [hz, hpa]
    | false =>
      have hex2 : ∃ b ∈ l, p b = true := by
        obtain ⟨b, hb, hpb⟩ := hex
        cases List.mem_cons.mp hb with
        | inl heq => rw [heq] at hpb; rw [hpb] at hpa; exact absurd hpa (by simp)
        | inr hmem => exact ⟨b, hmem, hpb⟩
      simp [ih htail hex2, hpa]

theorem find?_append_of_some {α : Type} (l1 l2 : List α) (p : α → Bool) (a : α)
    (h : l1.find? p = some a) : (l1 ++ l2).find? p = some a := by
  rw [List.find?_append, h]
  rfl

theorem find?_append_of_none {α : Type} (l1 l2 : List α) (p : α → Bool)
    (h : l1.find? p = none) : (l1 ++ l2).find? p = l2.find? p := by
  rw [List.find?_append, h]
  rfl

theorem insertRows_ok (pending : List PhotoTag) :
    ∀ l, (∀ r ∈ pending, ∀ x ∈ l, ¬ samePK x r = true) →
    pending.Pairwise (fun a b => ¬ samePK a b = true) →
    insertRows l pending = .ok (l ++ pending) := by
  induction pending with
  | nil =>
    intro l _ _
    unfold insertRows
    rw [List.append_nil]
  | cons r rs ih =>
    intro l hfresh hpair
    unfold insertRows insertRow
    have hnone : l.find? (fun x => samePK x r) = none := by
      rw [List.find?_eq_none]
      intro x hx
      exact hfresh r (List.mem_cons_self r rs) x hx
    rw [hnone]
    simp only [Option.isSome_none, Bool.false_eq_true, if_false]
    rcases List.pairwise_cons.mp hpair with ⟨hhead, htail⟩
    have hfresh2 : ∀ r2 ∈ rs, ∀ x ∈ l ++ [r], ¬ samePK x r2 = true := by
      intro r2 hr2 x hx
      cases List.mem_append.mp hx with
      | inl hxl => exact hfresh r2 (List.mem_cons_of_mem r hr2) x hxl
      | inr hxr =>
        rw [List.mem_singleton.mp hxr]
        exact hhead r2 hr2
    rw [ih (l ++ [r]) hfresh2 htail]
    simp

theorem flushS_ok_of_inv (pid : Nat) (s : Sess) (hinv : SessInv pid s) :
    flushS s = .ok ⟨{ s.flushed with photoTags := visibleAssocs s }, []⟩ := by
  unfold flushS
  have h : insertRows s.flushed.photoTags s.pendingAssocs
      = .ok (s.flushed.photoTags ++ s.pendingAssocs) := by
    apply insertRows_ok s.pendingAssocs s.flushed.photoTags ?_ hinv.pendPK
    intro r hr x hx
    exact samePK_symm_not _ _ (hinv.pendFresh r hr x hx)
  rw [h]
  rfl

theorem lookupTag_some_mem (tags : List Tag) (name : String) (t : Tag)
    (h : lookupTag tags name = some t) : t ∈ tags ∧ t.name = name := by
  refine ⟨List.mem_of_find?_eq_some h, ?_⟩
  have := List.find?_some h
  simpa using this

theorem lookupTag_none_names (tags : List Tag) (name : String)
    (h : lookupTag tags name = none) : ∀ t ∈ tags, t.name ≠ name := by
  intro t ht
  have := List.find?_eq_none.mp h t ht
  simpa using this

theorem tag_ids_distinct (tags : List Tag) (hids : (tags.map Tag.id).Nodup)
    (t1 t2 : Tag) (h1 : t1 ∈ tags) (h2 : t2 ∈ tags) (hne : t1.name ≠ t2.name) :
    t1.id ≠ t2.id := by
  intro heq
  exact hne (congrArg Tag.name (List.inj_on_of_nodup_map hids h1 h2 heq))

theorem nodup_map_append_one (f : Tag → Nat) (l : List Tag) (a : Tag)
    (h : (l.map f).Nodup) (hnotin : ∀ x ∈ l, f x ≠ f a) : ((l ++ [a]).map f).Nodup := by
  rw [List.map_append, List.nodup_append]
  refine ⟨h, List.nodup_singleton _, ?_⟩
  intro y hy
  obtain ⟨x, hx, hxy⟩ := List.mem_map.mp hy
  simp only [List.map_cons, List.map_nil, List.mem_singleton]
  intro hc
  exact hnotin x hx (by rw [hxy, hc])

theorem nodup_map_append_one_str (f : Tag → String) (l : List Tag) (a : Tag)
    (h : (l.map f).Nodup) (hnotin : ∀ x ∈ l, f x ≠ f a) : ((l ++ [a]).map f).Nodup := by
  rw [List.map_append, List.nodup_append]
  refine ⟨h, List.nodup_singleton _, ?_⟩
  intro y hy
  obtain ⟨x, hx, hxy⟩ := List.mem_map.mp hy
  simp only [List.map_cons, List.map_nil, List.mem_singleton]
  intro hc
  exact hnotin x hx (by rw [hxy, hc])

theorem tagInsert_inv (pid : Nat) (name : String) (cat : Option String) (s : Sess)
    (hinv : SessInv pid s) (hl : lookupTag s.flushed.tags name = none) :
    SessInv pid (tagInsert name cat s) := by
  constructor
  · constructor
    · exact nodup_map_append_one_str Tag.name s.flushed.tags _ hinv.dbi.namesNodup
        (fun x hx => lookupTag_none_names _ _ hl x hx)
    · exact nodup_map_append_one Tag.id s.flushed.tags _ hinv.dbi.idsNodup
        (fun x hx => Nat.ne_of_lt (hinv.dbi.idsLt x hx))
    · intro t ht
      show t.id < s.flushed.nextTagId + 1
      cases List.mem_append.mp ht with
      | inl h2 =>
        have := hinv.dbi.idsLt t h2
        omega
      | inr h2 =>
        rw [List.mem_singleton.mp h2]
        exact Nat.lt_succ_self _
    · exact hinv.dbi.ptPK
  · exact hinv.pendPK
  · exact hinv.pendFresh
  · intro r hr
    obtain ⟨h1, h2, t, ht, h3⟩ := hinv.pendShape r hr
    exact ⟨h1, h2, t, List.mem_append_left _ ht, h3⟩

/-- Everything established by one successful `processTag` step for the tag
named `name`. -/
structure StepSpec (pid : Nat) (name : String) (s s2 : Sess) : Prop where
  inv : SessInv pid s2
  photos : s2.flushed.photos = s.flushed.photos
  linked : tagLinkedS pid s2 name
  mono : ∀ n, tagLinkedS pid s n → tagLinkedS pid s2 n
  visMono : ∀ r ∈ visibleAssocs s, r ∈ visibleAssocs s2
  flMono : ∀ r ∈ s.flushed.photoTags, r ∈ s2.flushed.photoTags
  lookupPres : ∀ n, n ≠ name → lookupTag s2.flushed.tags n = lookupTag s.flushed.tags n
  visNew : ∀ r ∈ visibleAssocs s2, r ∈ visibleAssocs s ∨
    ∃ t, lookupTag s2.flushed.tags name = some t ∧ r.tag_id = t.id ∧
      r.photo_id = pid ∧ r.source = "ai"
  pendNew : ∀ r ∈ s2.pendingAssocs, r ∈ s.pendingAssocs ∨
    ∃ t, lookupTag s2.flushed.tags name = some t ∧ r.tag_id = t.id
  tagsNew : ∀ t2 ∈ s2.flushed.tags, t2 ∈ s.flushed.tags ∨ t2.name = name

theorem lookup_append_new (tags : List Tag) (name : String) (nt : Tag)
    (hl : lookupTag tags name = none) (hn : nt.name = name) :
    lookupTag (tags ++ [nt]) name = some nt := by
  unfold lookupTag at *
  rw [find?_append_of_none _ _ _ hl]
  apply List.find?_cons_of_pos
  simp [hn]

theorem lookup_append_other (tags : List Tag) (n : String) (nt : Tag)
    (hne : nt.name ≠ n) : lookupTag (tags ++ [nt]) n = lookupTag tags n := by
  unfold lookupTag
  cases h : tags.find? (fun t => t.name == n) with
  | some t => exact find?_append_of_some _ _ _ _ h
  | none =>
    rw [find?_append_of_none _ _ _ h]
    apply List.find?_cons_of_neg
    simp [hne]

theorem flush_inv (pid : Nat) (s : Sess) (hinv : SessInv pid s) :
    SessInv pid ⟨{ s.flushed with photoTags := visibleAssocs s }, []⟩ := by
  constructor
  · constructor
    · exact hinv.dbi.namesNodup
    · exact hinv.dbi.idsNodup
    · exact hinv.dbi.idsLt
    · show (visibleAssocs s).Pairwise (fun a b => ¬ samePK a b = true)
      unfold visibleAssocs
      rw [List.pairwise_append]
      refine ⟨hinv.dbi.ptPK, hinv.pendPK, ?_⟩
      intro a ha b hb
      exact samePK_symm_not _ _ (hinv.pendFresh b hb a ha)
  · exact List.Pairwise.nil
  · intro r hr
    exact absurd hr (List.not_mem_nil r)
  · intro r hr
    exact absurd hr (List.not_mem_nil r)

theorem processTag_spec (pid : Nat) (cat : Option String) (td : TagInput) (s : Sess)
    (hinv : SessInv pid s)
    (hpend : ∀ r ∈ s.pendingAssocs,
      ∃ t ∈ s.flushed.tags, r.tag_id = t.id ∧ t.name ≠ tdName td) :
    ∃ s2, processTag pid cat td s = .ok s2 ∧ StepSpec pid (tdName td) s s2 := by
  unfold processTag
  cases hl : lookupTag s.flushed.tags (tdName td) with
  | some t =>
    obtain ⟨htmem, htname⟩ := lookupTag_some_mem _ _ _ hl
    refine ⟨addAssoc pid t.id (tdConf td) s, rfl, ?_⟩
    unfold addAssoc
    cases hfind : s.flushed.photoTags.find? (assocPred pid t.id) with
    | some r0 =>
      simp only [hfind, Option.isSome_some, if_true]
      exact {
        inv := hinv
        photos := rfl
        linked := ⟨t, hl, r0,
          List.mem_append_left _ (List.mem_of_find?_eq_some hfind), List.find?_some hfind⟩
        mono := fun n h => h
        visMono := fun r hr => hr
        flMono := fun r hr => hr
        lookupPres := fun n _ => rfl
        visNew := fun r hr => Or.inl hr
        pendNew := fun r hr => Or.inl hr
        tagsNew := fun t2 ht2 => Or.inl ht2 }
    | none =>
      simp only [hfind, Option.isSome_none, Bool.false_eq_true, if_false]
      have hrowpred : assocPred pid t.id (⟨pid, t.id, "ai", tdConf td⟩ : PhotoTag) = true := by
        simp [assocPred]
      have hvm : ∀ r ∈ visibleAssocs s,
          r ∈ visibleAssocs { s with
            pendingAssocs := s.pendingAssocs ++ [⟨pid, t.id, "ai", tdConf td⟩] } := by
        intro r hr
        unfold visibleAssocs at hr ⊢
        cases List.mem_append.mp hr with
        | inl h2 => exact List.mem_append_left _ h2
        | inr h2 => exact List.mem_append_right _ (List.mem_append_left _ h2)
      refine {
        inv := ?_
        photos := rfl
        linked := ⟨t, hl, (⟨pid, t.id, "ai", tdConf td⟩ : PhotoTag),
          List.mem_append_right _ (List.mem_append_right _ (List.mem_singleton_self _)),
          hrowpred⟩
        mono := fun n h => ?_
        visMono := hvm
        flMono := fun r hr => hr
        lookupPres := fun n _ => rfl
        visNew := ?_
        pendNew := ?_
        tagsNew := fun t2 ht2 => Or.inl ht2 }
      · constructor
        · exact hinv.dbi
        · show (s.pendingAssocs ++ [(⟨pid, t.id, "ai", tdConf td⟩ : PhotoTag)]).Pairwise
            (fun a b => ¬ samePK a b = true)
          rw [List.pairwise_append]
          refine ⟨hinv.pendPK, List.pairwise_singleton _ _, ?_⟩
          intro a ha b hb
          rw [List.mem_singleton.mp hb]
          obtain ⟨t2, ht2, hid2, hname2⟩ := hpend a ha
          intro hcontra
          rw [samePK_iff] at hcontra
          have hne : t2.id ≠ t.id :=
            tag_ids_distinct s.flushed.tags hinv.dbi.idsNodup t2 t ht2 htmem
              (by rw [htname]; exact hname2)
          exact hne (by rw [← hid2]; exact hcontra.2.1)
        · intro r hr r2 hr2
          cases List.mem_append.mp hr with
          | inl h2 => exact hinv.pendFresh r h2 r2 hr2
          | inr h2 =>
            rw [List.mem_singleton.mp h2]
            intro hcontra
            rw [samePK_iff] at hcontra
            have : assocPred pid t.id r2 = true := by
              rw [assocPred_iff]
              exact ⟨hcontra.1.symm, hcontra.2.1.symm, hcontra.2.2.symm⟩
            exact absurd this (List.find?_eq_none.mp hfind r2 hr2)
        · intro r hr
          cases List.mem_append.mp hr with
          | inl h2 => exact hinv.pendShape r h2
          | inr h2 =>
            rw [List.mem_singleton.mp h2]
            exact ⟨rfl, rfl, t, htmem, rfl⟩
      · obtain ⟨t2, hl2, r2, hr2, hp2⟩ := h
        exact ⟨t2, hl2, r2, hvm r2 hr2, hp2⟩
      · intro r hr
        unfold visibleAssocs at hr
        cases List.mem_append.mp hr with
        | inl h2 => exact Or.inl (List.mem_append_left _ h2)
        | inr h2 =>
          cases List.mem_append.mp h2 with
          | inl h3 => exact Or.inl (List.mem_append_right _ h3)
          | inr h3 =>
            rw [List.mem_singleton.mp h3]
            exact Or.inr ⟨t, hl, rfl, rfl, rfl⟩
      · intro r hr
        cases List.mem_append.mp hr with
        | inl h2 => exact Or.inl h2
        | inr h2 =>
          rw [List.mem_singleton.mp h2]
          exact Or.inr ⟨t, hl, rfl⟩
  | none =>
    have hIns := tagInsert_inv pid (tdName td) cat s hinv hl
    have hfl := flushS_ok_of_inv pid (tagInsert (tdName td) cat s) hIns
    rw [hfl]
    dsimp only
    have hlook2 : lookupTag (s.flushed.tags ++
        [⟨s.flushed.nextTagId, tdName td, categoryOr cat⟩]) (tdName td)
        = some ⟨s.flushed.nextTagId, tdName td, categoryOr cat⟩ :=
      lookup_append_new _ _ _ hl rfl
    have hSfl := flush_inv pid (tagInsert (tdName td) cat s) hIns
    refine ⟨addAssoc pid s.flushed.nextTagId (tdConf td)
      ⟨{ (tagInsert (tdName td) cat s).flushed with
         photoTags := visibleAssocs (tagInsert (tdName td) cat s) }, []⟩, rfl, ?_⟩
    unfold addAssoc
    dsimp only
    cases hfind : (visibleAssocs (tagInsert (tdName td) cat s)).find?
        (assocPred pid s.flushed.nextTagId) with
    | some r0 =>
      simp only [hfind, Option.isSome_some, if_true]
      refine {
        inv := hSfl
        photos := rfl
        linked := ?_
        mono := ?_
        visMono := ?_
        flMono := ?_
        lookupPres := ?_
        visNew := ?_
        pendNew := fun r hr => absurd hr (List.not_mem_nil r)
        tagsNew := ?_ }
      · refine ⟨⟨s.flushed.nextTagId, tdName td, categoryOr cat⟩, ?_, r0, ?_, List.find?_some hfind⟩
        · show lookupTag (s.flushed.tags ++
            [⟨s.flushed.nextTagId, tdName td, categoryOr cat⟩]) (tdName td) = _
          exact hlook2
        · show r0 ∈ visibleAssocs s ++ []
          exact List.mem_append_left _ (List.mem_of_find?_eq_some hfind)
      · intro n h
        obtain ⟨t2, hl2, r2, hr2, hp2⟩ := h
        refine ⟨t2, ?_, r2, ?_, hp2⟩
        · show lookupTag (s.flushed.tags ++
            [⟨s.flushed.nextTagId, tdName td, categoryOr cat⟩]) n = some t2
          exact find?_append_of_some _ _ _ _ hl2
        · show r2 ∈ visibleAssocs s ++ []
          exact List.mem_append_left _ hr2
      · intro r hr
        show r ∈ visibleAssocs s ++ []
        exact List.mem_append_left _ hr
      · intro r hr
        show r ∈ visibleAssocs s
        exact List.mem_append_left _ hr
      · intro n hn
        show lookupTag (s.flushed.tags ++
          [⟨s.flushed.nextTagId, tdName td, categoryOr cat⟩]) n = lookupTag s.flushed.tags n
        exact lookup_append_other _ _ _ (fun hc => hn hc.symm)
      · intro r hr
        refine Or.inl ?_
        have hr2 : r ∈ visibleAssocs s ++ [] := hr
        rw [List.append_nil] at hr2
        exact hr2
      · intro t2 ht2
        have ht3 : t2 ∈ s.flushed.tags ++
          [⟨s.flushed.nextTagId, tdName td, categoryOr cat⟩] := ht2
        cases List.mem_append.mp ht3 with
        | inl h2 => exact Or.inl h2
        | inr h2 =>
          rw [List.mem_singleton.mp h2]
          exact Or.inr rfl
    | none =>
      simp only [hfind, Option.isSome_none, Bool.false_eq_true, if_false]
      have hrowpred : assocPred pid s.flushed.nextTagId
          (⟨pid, s.flushed.nextTagId, "ai", tdConf td⟩ : PhotoTag) = true := by
        simp [assocPred]
      refine {
        inv := ?_
        photos := rfl
        linked := ?_
        mono := ?_
        visMono := ?_
        flMono := ?_
        lookupPres := ?_
        visNew := ?_
        pendNew := ?_
        tagsNew := ?_ }
      · constructor
        · exact hSfl.dbi
        · exact List.pairwise_singleton _ _
        · intro r hr r2 hr2
          rw [List.mem_singleton.mp hr]
          intro hcontra
          rw [samePK_iff] at hcontra
          have hap : assocPred pid s.flushed.nextTagId r2 = true := by
            rw [assocPred_iff]
            exact ⟨hcontra.1.symm, hcontra.2.1.symm, hcontra.2.2.symm⟩
          exact absurd hap (List.find?_eq_none.mp hfind r2 hr2)
        · intro r hr
          rw [List.mem_singleton.mp hr]
          refine ⟨rfl, rfl, ⟨s.flushed.nextTagId, tdName td, categoryOr cat⟩, ?_, rfl⟩
          show _ ∈ s.flushed.tags ++ [⟨s.flushed.nextTagId, tdName td, categoryOr cat⟩]
          exact List.mem_append_right _ (List.mem_singleton_self _)
      · refine ⟨⟨s.flushed.nextTagId, tdName td, categoryOr cat⟩, ?_,
          (⟨pid, s.flushed.nextTagId, "ai", tdConf td⟩ : PhotoTag), ?_, hrowpred⟩
        · show lookupTag (s.flushed.tags ++
            [⟨s.flushed.nextTagId, tdName td, categoryOr cat⟩]) (tdName td) = _
          exact hlook2
        · show _ ∈ visibleAssocs s ++ [(⟨pid, s.flushed.nextTagId, "ai", tdConf td⟩ : PhotoTag)]
          exact List.mem_append_right _ (List.mem_singleton_self _)
      · intro n h
        obtain ⟨t2, hl2, r2, hr2, hp2⟩ := h
        refine ⟨t2, ?_, r2, ?_, hp2⟩
        · show lookupTag (s.flushed.tags ++
            [⟨s.flushed.nextTagId, tdName td, categoryOr cat⟩]) n = some t2
          exact find?_append_of_some _ _ _ _ hl2
        · show r2 ∈ visibleAssocs s ++ [(⟨pid, s.flushed.nextTagId, "ai", tdConf td⟩ : PhotoTag)]
          exact List.mem_append_left _ hr2
      · intro r hr
        show r ∈ visibleAssocs s ++ [(⟨pid, s.flushed.nextTagId, "ai", tdConf td⟩ : PhotoTag)]
        exact List.mem_append_left _ hr
      · intro r hr
        show r ∈ visibleAssocs s
        exact List.mem_append_left _ hr
      · intro n hn
        show lookupTag (s.flushed.tags ++
          [⟨s.flushed.nextTagId, tdName td, categoryOr cat⟩]) n = lookupTag s.flushed.tags n
        exact lookup_append_other _ _ _ (fun hc => hn hc.symm)
      · intro r hr
        have hr2 : r ∈ visibleAssocs s ++
          [(⟨pid, s.flushed.nextTagId, "ai", tdConf td⟩ : PhotoTag)] := hr
        cases List.mem_append.mp hr2 with
        | inl h2 => exact Or.inl h2
        | inr h2 =>
          rw [List.mem_singleton.mp h2]
          refine Or.inr ⟨⟨s.flushed.nextTagId, tdName td, categoryOr cat⟩, ?_, rfl, rfl, rfl⟩
          show lookupTag (s.flushed.tags ++
            [⟨s.flushed.nextTagId, tdName td, categoryOr cat⟩]) (tdName td) = _
          exact hlook2
      · intro r hr
        have hr2 : r ∈ [(⟨pid, s.flushed.nextTagId, "ai", tdConf td⟩ : PhotoTag)] := hr
        rw [List.mem_singleton.mp hr2]
        refine Or.inr ⟨⟨s.flushed.nextTagId, tdName td, categoryOr cat⟩, ?_, rfl⟩
        show lookupTag (s.flushed.tags ++
          [⟨s.flushed.nextTagId, tdName td, categoryOr cat⟩]) (tdName td) = _
        exact hlook2
      · intro t2 ht2
        have ht3 : t2 ∈ s.flushed.tags ++
          [⟨s.flushed.nextTagId, tdName td, categoryOr cat⟩] := ht2
        cases List.mem_append.mp ht3 with
        | inl h2 => exact Or.inl h2
        | inr h2 =>
          rw [List.mem_singleton.mp h2]
          exact Or.inr rfl

theorem reconcile_spec (pid : Nat) (cat : Option String) :
    ∀ (ts : List TagInput) (processed : List String) (s : Sess),
    (processed ++ ts.map tdName).Nodup →
    SessInv pid s →
    (∀ r ∈ s.pendingAssocs, ∃ n ∈ processed, ∃ t,
      lookupTag s.flushed.tags n = some t ∧ r.tag_id = t.id) →
    ∃ s2, reconcileTags pid cat ts s = .ok s2 ∧
      SessInv pid s2 ∧
      s2.flushed.photos = s.flushed.photos ∧
      (∀ td ∈ ts, tagLinkedS pid s2 (tdName td)) ∧
      (∀ n, tagLinkedS pid s n → tagLinkedS pid s2 n) ∧
      (∀ r ∈ visibleAssocs s, r ∈ visibleAssocs s2) ∧
      (∀ r ∈ s.flushed.photoTags, r ∈ s2.flushed.photoTags) ∧
      (∀ n, n ∉ ts.map tdName → lookupTag s2.flushed.tags n = lookupTag s.flushed.tags n) ∧
      (∀ r ∈ visibleAssocs s2, r ∈ visibleAssocs s ∨
        ∃ n ∈ ts.map tdName, ∃ t, lookupTag s2.flushed.tags n = some t ∧
          r.tag_id = t.id ∧ r.photo_id = pid ∧ r.source = "ai") ∧
      (∀ r ∈ s2.pendingAssocs, ∃ n ∈ processed ++ ts.map tdName, ∃ t,
        lookupTag s2.flushed.tags n = some t ∧ r.tag_id = t.id) ∧
      (∀ t2 ∈ s2.flushed.tags, t2 ∈ s.flushed.tags ∨ t2.name ∈ ts.map tdName) := by
  intro ts
  induction ts with
  | nil =>
    intro processed s hnd hinv hlink
    refine ⟨s, rfl, hinv, rfl, ?_, fun n h => h, fun r hr => hr, fun r hr => hr,
      fun n _ => rfl, fun r hr => Or.inl hr, ?_, fun t2 ht2 => Or.inl ht2⟩
    · intro td htd
      exact absurd htd (List.not_mem_nil td)
    · intro r hr
      obtain ⟨n, hn, t, hlt, hid⟩ := hlink r hr
      exact ⟨n, List.mem_append_left _ hn, t, hlt, hid⟩
  | cons td rest ih =>
    intro processed s hnd hinv hlink
    have hndAssoc : ((processed ++ [tdName td]) ++ rest.map tdName).Nodup := by
      have : processed ++ (td :: rest).map tdName
          = (processed ++ [tdName td]) ++ rest.map tdName := by
        rw [List.map_cons, List.append_assoc]
        rfl
      rw [← this]
      exact hnd
    have hdisj : ∀ n ∈ processed, n ≠ tdName td := by
      intro n hn hcontra
      have h2 : (processed ++ (td :: rest).map tdName).Nodup := hnd
      rw [List.nodup_append] at h2
      exact h2.2.2 hn (by rw [hcontra, List.map_cons]; exact List.mem_cons_self _ _)
    have hnotinrest : tdName td ∉ rest.map tdName := by
      have h2 := hnd
      rw [List.nodup_append] at h2
      have h3 := h2.2.1
      rw [List.map_cons] at h3
      exact (List.nodup_cons.mp h3).1
    have hpend : ∀ r ∈ s.pendingAssocs,
        ∃ t ∈ s.flushed.tags, r.tag_id = t.id ∧ t.name ≠ tdName td := by
      intro r hr
      obtain ⟨n, hn, t, hlt, hid⟩ := hlink r hr
      obtain ⟨htm, htn⟩ := lookupTag_some_mem _ _ _ hlt
      exact ⟨t, htm, hid, by rw [htn]; exact hdisj n hn⟩
    obtain ⟨s3, hstep, spec⟩ := processTag_spec pid cat td s hinv hpend
    have hlink3 : ∀ r ∈ s3.pendingAssocs, ∃ n ∈ processed ++ [tdName td], ∃ t,
        lookupTag s3.flushed.tags n = some t ∧ r.tag_id = t.id := by
      intro r hr
      cases spec.pendNew r hr with
      | inl hold =>
        obtain ⟨n, hn, t, hlt, hid⟩ := hlink r hold
        refine ⟨n, List.mem_append_left _ hn, t, ?_, hid⟩
        rw [spec.lookupPres n (hdisj n hn)]
        exact hlt
      | inr hnew =>
        obtain ⟨t, hlt, hid⟩ := hnew
        exact ⟨tdName td, List.mem_append_right _ (List.mem_singleton_self _), t, hlt, hid⟩
    obtain ⟨s2, hrest, hinv2, hphotos2, hlinked2, hmono2, hvis2, hfl2, hpres2,
      hvisNew2, hpendLink2, htags2⟩ :=
      ih (processed ++ [tdName td]) s3 hndAssoc spec.inv hlink3
    have hrun : reconcileTags pid cat (td :: rest) s = .ok s2 := by
      unfold reconcileTags
      rw [hstep]
      exact hrest
    refine ⟨s2, hrun, hinv2, hphotos2.trans spec.photos, ?_, ?_, ?_, ?_, ?_, ?_, ?_, ?_⟩
    · intro td2 htd2
      cases List.mem_cons.mp htd2 with
      | inl heq =>
        rw [heq]
        exact hmono2 (tdName td) spec.linked
      | inr hmem => exact hlinked2 td2 hmem
    · intro n h
      exact hmono2 n (spec.mono n h)
    · intro r hr
      exact hvis2 r (spec.visMono r hr)
    · intro r hr
      exact hfl2 r (spec.flMono r hr)
    · intro n hn
      rw [List.map_cons] at hn
      have h1 : n ≠ tdName td := fun hc => hn (by rw [hc]; exact List.mem_cons_self _ _)
      have h2 : n ∉ rest.map tdName := fun hc => hn (List.mem_cons_of_mem _ hc)
      rw [hpres2 n h2, spec.lookupPres n h1]
    · intro r hr
      cases hvisNew2 r hr with
      | inr hnew =>
        obtain ⟨n, hn, rest2⟩ := hnew
        exact Or.inr ⟨n, by rw [List.map_cons]; exact List.mem_cons_of_mem _ hn, rest2⟩
      | inl hvis3 =>
        cases spec.visNew r hvis3 with
        | inl hold => exact Or.inl hold
        | inr hnew =>
          obtain ⟨t, hlt, hid, hpid, hsrc⟩ := hnew
          refine Or.inr ⟨tdName td, by rw [List.map_cons]; exact List.mem_cons_self _ _,
            t, ?_, hid, hpid, hsrc⟩
          rw [hpres2 (tdName td) hnotinrest]
          exact hlt
    · intro r hr
      obtain ⟨n, hn, t, hlt, hid⟩ := hpendLink2 r hr
      refine ⟨n, ?_, t, hlt, hid⟩
      have : (processed ++ [tdName td]) ++ rest.map tdName
          = processed ++ (td :: rest).map tdName := by
        rw [List.map_cons, List.append_assoc]
        rfl
      rw [← this]
      exact hn
    · intro t2 ht2
      cases htags2 t2 ht2 with
      | inr hname => exact Or.inr (by rw [List.map_cons]; exact List.mem_cons_of_mem _ hname)
      | inl hmem3 =>
        cases spec.tagsNew t2 hmem3 with
        | inl hmem => exact Or.inl hmem
        | inr hname => exact Or.inr (by rw [List.map_cons, hname]; exact List.mem_cons_self _ _)

theorem reconcile_noop (pid : Nat) (cat : Option String) :
    ∀ (ts : List TagInput) (s : Sess),
    (∀ td ∈ ts, ∃ t, lookupTag s.flushed.tags (tdName td) = some t ∧
      ∃ r ∈ s.flushed.photoTags, assocPred pid t.id r = true) →
    reconcileTags pid cat ts s = .ok s := by
  intro ts
  induction ts with
  | nil => intro s _; rfl
  | cons td rest ih =>
    intro s hdone
    obtain ⟨t, hlt, r, hr, hpred⟩ := hdone td (List.mem_cons_self td rest)
    have hsome : (s.flushed.photoTags.find? (assocPred pid t.id)).isSome = true :=
      List.find?_isSome.mpr ⟨r, hr, hpred⟩
    have hstep : processTag pid cat td s = .ok s := by
      unfold processTag
      rw [hlt]
      show Except.ok (addAssoc pid t.id (tdConf td) s) = .ok s
      unfold addAssoc
      rw [if_pos hsome]
    unfold reconcileTags
    rw [hstep]
    exact ih s (fun td2 h2 => hdone td2 (List.mem_cons_of_mem td h2))

theorem flushS_nil (fl : DB) : flushS ⟨fl, []⟩ = .ok ⟨fl, []⟩ := rfl

theorem update_run (pid : Nat) (cap : Option String) (ts : List TagInput)
    (cat : Option String) (cols : Option ColorsVal) (mood : Option String)
    (db : DB) (p : Photo) (hgp : getPhoto db pid = some p) (s1 : Sess)
    (hrec : reconcileTags pid cat ts ⟨updFields pid cap cols db, []⟩ = .ok s1)
    (hinv1 : SessInv pid s1) :
    update_photo_ai_data pid cap ts cat cols mood db
      = (true, { s1.flushed with photoTags := visibleAssocs s1 }) := by
  unfold update_photo_ai_data
  rw [hgp]
  dsimp only
  rw [hrec]
  dsimp only
  rw [flushS_ok_of_inv pid s1 hinv1]

theorem update_run_noop (pid : Nat) (cap : Option String) (ts : List TagInput)
    (cat : Option String) (cols : Option ColorsVal) (mood : Option String)
    (db : DB) (p : Photo) (hgp : getPhoto db pid = some p)
    (hno : reconcileTags pid cat ts ⟨updFields pid cap cols db, []⟩
      = .ok ⟨updFields pid cap cols db, []⟩) :
    update_photo_ai_data pid cap ts cat cols mood db
      = (true, updFields pid cap cols db) := by
  unfold update_photo_ai_data
  rw [hgp]
  dsimp only
  rw [hno]
  dsimp only
  rw [flushS_nil]

/-! ### C5 — tag reconciliation idempotence -/

/-- C5 (amended): for a tag list whose names are pairwise distinct, calling the
reconciler twice with the identical list produces exactly one
`PhotoTagAssociation` row per distinct tag name under `source="ai"`, the second
call is a no-op on tags and associations, and rows that already existed survive
both calls untouched (first write wins).  (Without the distinctness condition
the transaction aborts wholesale — see the counterexample.) -/
theorem c5_tag_reconciler_idempotent (db : DB) (pid : Nat) (cap : Option String)
    (ts : List TagInput) (cat : Option String) (cols : Option ColorsVal)
    (mood : Option String) (hdb : DBInv db) (hp : photoExists db pid = true)
    (hnd : (ts.map tdName).Nodup) :
    ∃ db1 db2,
      update_photo_ai_data pid cap ts cat cols mood db = (true, db1) ∧
      update_photo_ai_data pid cap ts cat cols mood db1 = (true, db2) ∧
      (∀ td ∈ ts, ∃ t, lookupTag db1.tags (tdName td) = some t ∧
        countAssoc db1 pid t.id = 1) ∧
      db2.photoTags = db1.photoTags ∧ db2.tags = db1.tags ∧
      (∀ pt ∈ db.photoTags, pt ∈ db1.photoTags ∧ pt ∈ db2.photoTags) := by
  unfold photoExists at hp
  obtain ⟨p, hgp⟩ := Option.isSome_iff_exists.mp hp
  have hinv0 : SessInv pid ⟨updFields pid cap cols db, []⟩ := by
    refine ⟨⟨hdb.namesNodup, hdb.idsNodup, hdb.idsLt, hdb.ptPK⟩, List.Pairwise.nil, ?_, ?_⟩
    · intro r hr
      exact absurd hr (List.not_mem_nil r)
    · intro r hr
      exact absurd hr (List.not_mem_nil r)
  have hnd0 : (([] : List String) ++ ts.map tdName).Nodup := by simpa using hnd
  obtain ⟨s1, hrec, hinv1, hphotos1, hlinked1, hmono1, hvis1, hfl1, hpres1,
    hvisNew1, hpend1, htags1⟩ :=
    reconcile_spec pid cat ts [] ⟨updFields pid cap cols db, []⟩ hnd0 hinv0
      (fun r hr => absurd hr (List.not_mem_nil r))
  have hrun1 := update_run pid cap ts cat cols mood db p hgp s1 hrec hinv1
  have hpair1 : ({ s1.flushed with photoTags := visibleAssocs s1 } : DB).photoTags.Pairwise
      (fun a b => ¬ samePK a b = true) := (flush_inv pid s1 hinv1).dbi.ptPK
  have hlinkedDb1 : ∀ td ∈ ts,
      ∃ t, lookupTag ({ s1.flushed with photoTags := visibleAssocs s1 } : DB).tags
        (tdName td) = some t ∧
      ∃ r ∈ ({ s1.flushed with photoTags := visibleAssocs s1 } : DB).photoTags,
        assocPred pid t.id r = true := by
    intro td htd
    obtain ⟨t, hlt, r, hr, hpred⟩ := hlinked1 td htd
    exact ⟨t, hlt, r, hr, hpred⟩
  have hcount : ∀ td ∈ ts,
      ∃ t, lookupTag ({ s1.flushed with photoTags := visibleAssocs s1 } : DB).tags
        (tdName td) = some t ∧
      countAssoc { s1.flushed with photoTags := visibleAssocs s1 } pid t.id = 1 := by
    intro td htd
    obtain ⟨t, hlt, r, hr, hpred⟩ := hlinkedDb1 td htd
    refine ⟨t, hlt, ?_⟩
    exact countP_eq_one_of_pairwise _ _ hpair1 (samePK_of_assocPred pid t.id) ⟨r, hr, hpred⟩
  have hp1 : photoExists { s1.flushed with photoTags := visibleAssocs s1 } pid = true := by
    have h2 : photoExists ((true,
        ({ s1.flushed with photoTags := visibleAssocs s1 } : DB)) : Bool × DB).2 pid
        = photoExists db pid := by
      rw [← hrun1]
      exact photoExists_update pid cap ts cat cols mood db
    have h3 : photoExists ({ s1.flushed with photoTags := visibleAssocs s1 } : DB) pid
        = photoExists db pid := h2
    rw [h3]
    unfold photoExists
    rw [hgp]
    rfl
  unfold photoExists at hp1
  obtain ⟨p1, hgp1⟩ := Option.isSome_iff_exists.mp hp1
  have hdone2 : ∀ td ∈ ts,
      ∃ t, lookupTag (⟨updFields pid cap cols
          { s1.flushed with photoTags := visibleAssocs s1 }, []⟩ : Sess).flushed.tags
        (tdName td) = some t ∧
      ∃ r ∈ (⟨updFields pid cap cols
          { s1.flushed with photoTags := visibleAssocs s1 }, []⟩ : Sess).flushed.photoTags,
        assocPred pid t.id r = true := by
    intro td htd
    obtain ⟨t, hlt, r, hr, hpred⟩ := hlinkedDb1 td htd
    exact ⟨t, hlt, r, hr, hpred⟩
  have hno := reconcile_noop pid cat ts
    ⟨updFields pid cap cols { s1.flushed with photoTags := visibleAssocs s1 }, []⟩ hdone2
  have hrun2 := update_run_noop pid cap ts cat cols mood
    { s1.flushed with photoTags := visibleAssocs s1 } p1 hgp1 hno
  refine ⟨{ s1.flushed with photoTags := visibleAssocs s1 },
    updFields pid cap cols { s1.flushed with photoTags := visibleAssocs s1 },
    hrun1, hrun2, hcount, rfl, rfl, ?_⟩
  intro pt hpt
  have h1 : pt ∈ s1.flushed.photoTags := hfl1 pt hpt
  have h2 : pt ∈ visibleAssocs s1 := List.mem_append_left _ h1
  exact ⟨h2, h2⟩

/-- C5 counterexample: with a duplicate tag name in a single call, the second
occurrence's existence query cannot see the first row (it is pending and the
session has `autoflush=False`), a second identical-key row is added, the commit
flush raises `IntegrityError`, and the whole transaction rolls back — both
calls return `False` and zero association rows exist, not one row per distinct
name. -/
theorem c5_counterexample :
    update_photo_ai_data 1 none [.dict "cat" (1/2), .dict "cat" (1/2)] none none none dbPend
      = (false, dbPend) ∧
    (update_photo_ai_data 1 none [.dict "cat" (1/2), .dict "cat" (1/2)] none none none
      (update_photo_ai_data 1 none [.dict "cat" (1/2), .dict "cat" (1/2)] none none none
        dbPend).2).2.photoTags = [] := by
  exact ⟨rfl, rfl⟩

/-- C5 witness for the amended theorem. -/
theorem c5_tag_reconciler_idempotent_witness :
    ∃ db1 db2,
      update_photo_ai_data 1 none [.dict "cat" (1/2), .dict "dog" (3/4)] none none none dbPend
        = (true, db1) ∧
      update_photo_ai_data 1 none [.dict "cat" (1/2), .dict "dog" (3/4)] none none none db1
        = (true, db2) ∧
      (∀ td ∈ [TagInput.dict "cat" (1/2), TagInput.dict "dog" (3/4)],
        ∃ t, lookupTag db1.tags (tdName td) = some t ∧ countAssoc db1 1 t.id = 1) ∧
      db2.photoTags = db1.photoTags ∧ db2.tags = db1.tags ∧
      (∀ pt ∈ dbPend.photoTags, pt ∈ db1.photoTags ∧ pt ∈ db2.photoTags) :=
  c5_tag_reconciler_idempotent dbPend 1 none [.dict "cat" (1/2), .dict "dog" (3/4)]
    none none none ⟨by decide, by decide, by decide, List.Pairwise.nil⟩ rfl (by decide)

/-! ### Transport lemmas for the run-level precedence claim -/

theorem claimStep_tags (c : Bool) (pid : Nat) (db : DB) :
    (claimStep c pid db).tags = db.tags := by
  unfold claimStep
  cases c with
  | true => rfl
  | false => cases getPhoto db pid <;> rfl

theorem claimStep_photoTags (c : Bool) (pid : Nat) (db : DB) :
    (claimStep c pid db).photoTags = db.photoTags := by
  unfold claimStep
  cases c with
  | true => rfl
  | false => cases getPhoto db pid <;> rfl

theorem claimStep_nextTagId (c : Bool) (pid : Nat) (db : DB) :
    (claimStep c pid db).nextTagId = db.nextTagId := by
  unfold claimStep
  cases c with
  | true => rfl
  | false => cases getPhoto db pid <;> rfl

theorem dbinv_of_eq (db1 db2 : DB) (ht : db1.tags = db2.tags)
    (hpt : db1.photoTags = db2.photoTags) (hn : db1.nextTagId = db2.nextTagId)
    (h : DBInv db1) : DBInv db2 := by
  refine ⟨?_, ?_, ?_, ?_⟩
  · rw [← ht]; exact h.namesNodup
  · rw [← ht]; exact h.idsNodup
  · rw [← ht, ← hn]; exact h.idsLt
  · rw [← hpt]; exact h.ptPK

theorem tagLinked_of_eq (db1 db2 : DB) (pid : Nat) (n : String)
    (ht : db1.tags = db2.tags) (hpt : db1.photoTags = db2.photoTags)
    (h : tagLinked db1 pid n) : tagLinked db2 pid n := by
  unfold tagLinked at h ⊢
  rw [← ht, ← hpt]
  exact h

theorem captionOf_congr (db1 db2 : DB) (pid : Nat) (h : db1.photos = db2.photos) :
    captionOf db1 pid = captionOf db2 pid := by
  unfold captionOf getPhoto
  rw [h]

theorem dominantColorsOf_congr (db1 db2 : DB) (pid : Nat) (h : db1.photos = db2.photos) :
    dominantColorsOf db1 pid = dominantColorsOf db2 pid := by
  unfold dominantColorsOf getPhoto
  rw [h]

theorem captionOf_updFields (pid : Nat) (cap : Option String) (cols : Option ColorsVal)
    (db : DB) (p : Photo) (hgp : getPhoto db pid = some p)
    (hcap : truthyStr cap = true) :
    captionOf (updFields pid cap cols db) pid = cap := by
  unfold captionOf updFields
  rw [getPhoto_setPhoto db pid _ (updFieldsFn_id cap cols), hgp]
  dsimp only [Option.map]
  by_cases hc : truthyColors cols = true <;> simp [updFieldsFn, hcap, hc]

theorem dominantColorsOf_updFields (pid : Nat) (cap : Option String)
    (cols : Option ColorsVal) (db : DB) (p : Photo) (hgp : getPhoto db pid = some p)
    (hcols : truthyColors cols = true) :
    dominantColorsOf (updFields pid cap cols db) pid = cols := by
  unfold dominantColorsOf updFields
  rw [getPhoto_setPhoto db pid _ (updFieldsFn_id cap cols), hgp]
  dsimp only [Option.map]
  by_cases hc : truthyStr cap = true <;> simp [updFieldsFn, hcols, hc]

theorem captionOf_setPhoto_keep (pid : Nat) (f : Photo → Photo) (db : DB)
    (hid : ∀ p, (f p).id = p.id) (hcap : ∀ p, (f p).caption = p.caption) :
    captionOf (setPhoto pid f db) pid = captionOf db pid := by
  unfold captionOf
  rw [getPhoto_setPhoto db pid f hid]
  cases getPhoto db pid with
  | none => rfl
  | some p =>
    dsimp only [Option.map]
    rw [hcap]

theorem dominantColorsOf_setPhoto_keep (pid : Nat) (f : Photo → Photo) (db : DB)
    (hid : ∀ p, (f p).id = p.id) (hdc : ∀ p, (f p).dominant_colors = p.dominant_colors) :
    dominantColorsOf (setPhoto pid f db) pid = dominantColorsOf db pid := by
  unfold dominantColorsOf
  rw [getPhoto_setPhoto db pid f hid]
  cases getPhoto db pid with
  | none => rfl
  | some p =>
    dsimp only [Option.map]
    rw [hdc]

theorem tdName_map_api (l : List String) :
    (l.map (fun t => TagInput.dict t (9/10))).map tdName = l := by
  induction l with
  | nil => rfl
  | cons a l ih => simp [tdName, ih]

/-! ### C3 — API precedence -/

/-- C3 (amended): when both stages produce usable results, the combined
result is always exactly the mapped API reply (full supersession at the
combination step, never a merge).  Provided the API reply's tag names are
pairwise distinct and its description and colors are non-empty, the persisted
caption and dominant colors are the API's (caption "A" from the CV stage is
replaced by the API's "B"), every API tag name ends up linked, and no tag
name outside the API list — in particular no local-only tag — gets linked:
the reconciled tags are the API tags, not a union.  The two provisos are
forced by the code (see the counterexample): a duplicate API tag name makes
the persistence transaction roll back wholesale, so neither the API caption
nor any tag row survives although the status is still set `completed`; an
empty API description or colors string is skipped by the Python truthiness
check, so the stale value survives instead of the API's. -/
theorem c3_api_precedence (cfg : Config) (o : Oracle) (pid : Nat) (db : DB)
    (cv : CvSuccess) (a : AnalyzeResult)
    (hcv : cfg.cv_enabled = true) (hcvr : o.cvRaw = .ok cv)
    (hapi : cfg.api_enabled = true) (hav : cfg.api_available = true)
    (hprov : o.provider = "openai") (hkey : o.hasOpenaiKey = true)
    (han : o.analyze = a) (hsucc : a.success = true)
    (hu : o.unexpected = none) (hsx : o.saveExc = none)
    (hdb : DBInv db) (hp : photoExists db pid = true)
    (hndA : a.tags.Nodup) (hdesc : a.description ≠ "") (hcolors : a.colors ≠ "") :
    finalResultOf cfg o = some (apiResultOf a) ∧
    captionOf (process_photo_simple cfg o pid db) pid = some a.description ∧
    dominantColorsOf (process_photo_simple cfg o pid db) pid
      = some (ColorsVal.s a.colors) ∧
    (∀ n ∈ a.tags, tagLinked (process_photo_simple cfg o pid db) pid n) ∧
    (∀ n, ¬ tagLinked db pid n → n ∉ a.tags →
      ¬ tagLinked (process_photo_simple cfg o pid db) pid n) := by
  have hfr : finalResultOf cfg o = some (apiResultOf a) := by
    unfold finalResultOf
    rw [hapi, hav]
    simp only [Bool.and_self, if_true]
    unfold process_with_api process_with_api_body
    rw [hprov, hkey, han]
    simp [hsucc]
  have hrun : process_photo_simple cfg o pid db
      = setPhoto pid (fun p => { p with ai_status := "completed", ai_error := none })
        (update_photo_ai_data pid (some a.description)
          (a.tags.map (fun t => TagInput.dict t (9/10))) (some a.category)
          (some (ColorsVal.s a.colors)) (some a.mood)
          (claimStep o.claimFails pid db)).2 := by
    unfold process_photo_simple process_photo_simple_body
    rw [hu]
    dsimp only
    unfold saveStep
    rw [hfr]
    dsimp only [apiResultOf, Option.getD, Option.isSome]
    rw [hsx]
    simp only [Bool.false_eq_true, if_false]
  have hdbcInv : DBInv (claimStep o.claimFails pid db) :=
    dbinv_of_eq db _ (claimStep_tags _ _ _).symm (claimStep_photoTags _ _ _).symm
      (claimStep_nextTagId _ _ _).symm hdb
  have hpc : photoExists (claimStep o.claimFails pid db) pid = true := by
    rw [photoExists_claimStep]
    exact hp
  unfold photoExists at hpc
  obtain ⟨pc, hgpc⟩ := Option.isSome_iff_exists.mp hpc
  have hinv0 : SessInv pid ⟨updFields pid (some a.description) (some (.s a.colors))
      (claimStep o.claimFails pid db), []⟩ := by
    refine ⟨⟨hdbcInv.namesNodup, hdbcInv.idsNodup, hdbcInv.idsLt, hdbcInv.ptPK⟩,
      List.Pairwise.nil, ?_, ?_⟩
    · intro r hr
      exact absurd hr (List.not_mem_nil r)
    · intro r hr
      exact absurd hr (List.not_mem_nil r)
  have hnd0 : (([] : List String)
      ++ (a.tags.map (fun t => TagInput.dict t (9/10))).map tdName).Nodup := by
    rw [tdName_map_api]
    simpa using hndA
  obtain ⟨s1, hrec, hinv1, hphotos1, hlinked1, hmono1, hvis1, hfl1, hpres1,
    hvisNew1, hpend1, htags1⟩ :=
    reconcile_spec pid (some a.category) (a.tags.map (fun t => TagInput.dict t (9/10)))
      [] ⟨updFields pid (some a.description) (some (.s a.colors))
        (claimStep o.claimFails pid db), []⟩ hnd0 hinv0
      (fun r hr => absurd hr (List.not_mem_nil r))
  have hrunU := update_run pid (some a.description)
    (a.tags.map (fun t => TagInput.dict t (9/10))) (some a.category)
    (some (.s a.colors)) (some a.mood) (claimStep o.claimFails pid db) pc hgpc s1 hrec hinv1
  have hph : (({ s1.flushed with photoTags := visibleAssocs s1 }) : DB).photos
      = (updFields pid (some a.description) (some (.s a.colors))
        (claimStep o.claimFails pid db)).photos := by
    show s1.flushed.photos = _
    rw [hphotos1]
  refine ⟨hfr, ?_, ?_, ?_, ?_⟩
  · rw [hrun, hrunU]
    rw [captionOf_setPhoto_keep pid
      (fun p => { p with ai_status := "completed", ai_error := none }) _
      (fun _ => rfl) (fun _ => rfl)]
    rw [captionOf_congr _ _ pid hph]
    exact captionOf_updFields pid _ _ _ pc hgpc (by simp [truthyStr]; exact hdesc)
  · rw [hrun, hrunU]
    rw [dominantColorsOf_setPhoto_keep pid
      (fun p => { p with ai_status := "completed", ai_error := none }) _
      (fun _ => rfl) (fun _ => rfl)]
    rw [dominantColorsOf_congr _ _ pid hph]
    exact dominantColorsOf_updFields pid _ _ _ pc hgpc (by simp [truthyColors]; exact hcolors)
  · intro n hn
    rw [hrun, hrunU]
    apply tagLinked_of_eq { s1.flushed with photoTags := visibleAssocs s1 } _ pid n rfl rfl
    have htd : TagInput.dict n (9/10) ∈ a.tags.map (fun t => TagInput.dict t (9/10)) :=
      List.mem_map.mpr ⟨n, hn, rfl⟩
    obtain ⟨t, hlt, r, hr, hpred⟩ := hlinked1 (TagInput.dict n (9/10)) htd
    exact ⟨t, hlt, r, hr, hpred⟩
  · intro n hnot hnotin hcontra
    rw [hrun, hrunU] at hcontra
    have hdb1 : tagLinked { s1.flushed with photoTags := visibleAssocs s1 } pid n :=
      tagLinked_of_eq _ _ pid n rfl rfl hcontra
    obtain ⟨t, hlt, r, hr, hpred⟩ := hdb1
    have hnotin2 : n ∉ (a.tags.map (fun t => TagInput.dict t (9/10))).map tdName := by
      rw [tdName_map_api]
      exact hnotin
    have hlt1 : lookupTag s1.flushed.tags n = some t := hlt
    have hr1 : r ∈ visibleAssocs s1 := hr
    cases hvisNew1 r hr1 with
    | inl hold =>
      apply hnot
      apply tagLinked_of_eq (claimStep o.claimFails pid db) db pid n
        (claimStep_tags _ _ _) (claimStep_photoTags _ _ _)
      refine ⟨t, ?_, r, ?_, hpred⟩
      · have h4 : lookupTag (⟨updFields pid (some a.description)
            (some (ColorsVal.s a.colors)) (claimStep o.claimFails pid db),
            []⟩ : Sess).flushed.tags n = some t := by
          rw [← hpres1 n hnotin2]
          exact hlt1
        exact h4
      · have h2 : r ∈ (claimStep o.claimFails pid db).photoTags ++ [] := hold
        rwa [List.append_nil] at h2
    | inr hnew =>
      obtain ⟨m, hm, t2, hlt2, hid2, _, _⟩ := hnew
      have hpr := (assocPred_iff pid t.id r).mp hpred
      have hne : n ≠ m := fun hc => hnotin2 (hc ▸ hm)
      obtain ⟨htm, htn⟩ := lookupTag_some_mem _ _ _ hlt1
      obtain ⟨ht2m, ht2n⟩ := lookupTag_some_mem _ _ _ hlt2
      have hids : t.id ≠ t2.id :=
        tag_ids_distinct s1.flushed.tags hinv1.dbi.idsNodup t t2 htm ht2m
          (by rw [htn, ht2n]; exact hne)
      exact hids (by rw [← hpr.2.1, hid2])

/-- `analyze_image` reply where the API succeeded with caption "B". -/
def aBothOk : AnalyzeResult := ⟨true, none, "B", "warm", "calm", ["cat", "dog"], "scenery"⟩

/-- Oracle of a run where the CV stage succeeds with caption "A" and the API
stage succeeds with caption "B"; no injected faults. -/
def oBothOk : Oracle :=
  { cvRaw := .ok ⟨"A", ["#aabbcc"], [.dict "横向" (9/10)]⟩, provider := "openai"
    hasOpenaiKey := true, hasQwenKey := false, analyze := aBothOk
    claimFails := false, unexpected := none, saveExc := none, failWriteFails := false }

/-- C3 witness: local caption "A", API caption "B" — the persisted caption is
"B" and the API tag "cat" is linked. -/
theorem c3_api_precedence_witness :
    captionOf (process_photo_simple ⟨true, true, true⟩ oBothOk 1 dbPend) 1 = some "B" ∧
    tagLinked (process_photo_simple ⟨true, true, true⟩ oBothOk 1 dbPend) 1 "cat" :=
  ⟨(c3_api_precedence ⟨true, true, true⟩ oBothOk 1 dbPend
      ⟨"A", ["#aabbcc"], [.dict "横向" (9/10)]⟩ aBothOk rfl rfl rfl rfl rfl rfl rfl rfl
      rfl rfl ⟨by decide, by decide, by decide, List.Pairwise.nil⟩ rfl
      (by decide) (by decide) (by decide)).2.1,
    (c3_api_precedence ⟨true, true, true⟩ oBothOk 1 dbPend
      ⟨"A", ["#aabbcc"], [.dict "横向" (9/10)]⟩ aBothOk rfl rfl rfl rfl rfl rfl rfl rfl
      rfl rfl ⟨by decide, by decide, by decide, List.Pairwise.nil⟩ rfl
      (by decide) (by decide) (by decide)).2.2.2.1 "cat" (by decide)⟩

/-- `analyze_image` reply whose tag list repeats a name ("cat" twice); a reply
like `"tags": "cat, cat"` produces exactly this after normalization. -/
def aDupTags : AnalyzeResult := ⟨true, none, "B", "warm", "calm", ["cat", "cat"], "scenery"⟩

/-- Oracle of a run where the CV stage succeeds with caption "A" and the API
stage succeeds with caption "B" but a duplicated tag name; no injected faults. -/
def oDupTags : Oracle :=
  { cvRaw := .ok ⟨"A", ["#aabbcc"], [.dict "横向" (9/10)]⟩, provider := "openai"
    hasOpenaiKey := true, hasQwenKey := false, analyze := aDupTags
    claimFails := false, unexpected := none, saveExc := none, failWriteFails := false }

/-- `analyze_image` reply that succeeded but carries an empty description and
empty colors string. -/
def aEmptyDesc : AnalyzeResult := ⟨true, none, "", "", "calm", ["cat"], "scenery"⟩

/-- Oracle of a run where the CV stage succeeds with caption "A" and the API
stage succeeds with an empty description/colors; no injected faults. -/
def oEmptyDesc : Oracle :=
  { cvRaw := .ok ⟨"A", ["#aabbcc"], [.dict "横向" (9/10)]⟩, provider := "openai"
    hasOpenaiKey := true, hasQwenKey := false, analyze := aEmptyDesc
    claimFails := false, unexpected := none, saveExc := none, failWriteFails := false }

/-- C3 counterexample: two runs in which both stages produce usable
(non-error) results yet the claim fails.  With the duplicated API tag name,
`update_photo_ai_data` hits the duplicate-key `IntegrityError` at commit and
rolls back wholesale: the API caption "B" is never persisted, zero tag rows
are reconciled, and the status is still set `completed`.  With an empty API
description and colors, the `if caption:` / `if dominant_colors:` truthiness
checks skip the write, so the stale values survive instead of the API's. -/
theorem c3_counterexample :
    (finalResultOf ⟨true, true, true⟩ oDupTags = some (apiResultOf aDupTags) ∧
     (apiResultOf aDupTags).error = none ∧
     captionOf (process_photo_simple ⟨true, true, true⟩ oDupTags 1 dbPend) 1 = none ∧
     (process_photo_simple ⟨true, true, true⟩ oDupTags 1 dbPend).photoTags = [] ∧
     statusOf (process_photo_simple ⟨true, true, true⟩ oDupTags 1 dbPend) 1
       = some "completed") ∧
    (finalResultOf ⟨true, true, true⟩ oEmptyDesc = some (apiResultOf aEmptyDesc) ∧
     (apiResultOf aEmptyDesc).error = none ∧
     captionOf (process_photo_simple ⟨true, true, true⟩ oEmptyDesc 1 dbPend) 1 = none ∧
     dominantColorsOf (process_photo_simple ⟨true, true, true⟩ oEmptyDesc 1 dbPend) 1
       = none ∧
     statusOf (process_photo_simple ⟨true, true, true⟩ oEmptyDesc 1 dbPend) 1
       = some "completed") := by
  exact ⟨⟨rfl, rfl, rfl, rfl, rfl⟩, ⟨rfl, rfl, rfl, rfl, rfl⟩⟩
